import Mathlib

/-!
Verification development for the Format King application (src/app.js).

The application normalizes loosely structured tabular text (delimited text,
box-drawn tables, Markdown tables, JSON arrays of objects, fixed-width text)
into one canonical row/column model with sorting, filtering and export.

Modelling conventions for the shallow embedding:
* JavaScript strings are modelled as lists of characters (JStr).  String
  literals in JS source are embedded through String.toList.
* JavaScript numbers are modelled as exact unnormalized fractions (JFrac);
  the source performs IEEE-754 double arithmetic whose roundings are not
  observable on any of the small quantities the properties below evaluate.
* Each definition mirrors one function of src/app.js; its doc comment cites
  the source location.  Regular expressions from the source are embedded as
  explicit character-list matchers that are carefully derived from the
  backtracking semantics of the original pattern.
-/

/-- JavaScript strings, modelled as lists of unicode characters. -/
abbrev JStr := List Char

/-- Embed a Lean string literal as a JStr. -/
def jstr (s : String) : JStr := s.toList

/-- The JavaScript whitespace class: the characters matched by the regex
class [\s] and trimmed by String.prototype.trim (WhiteSpace and
LineTerminator code points). -/
def jsWsChar (c : Char) : Bool :=
  c = ' ' || c = '\t' || c = '\n' || c = '\r' || c = '\x0b' || c = '\x0c' ||
  c = '\u00a0' || c = '\u1680' || c = '\u2000' || c = '\u2001' || c = '\u2002' ||
  c = '\u2003' || c = '\u2004' || c = '\u2005' || c = '\u2006' || c = '\u2007' ||
  c = '\u2008' || c = '\u2009' || c = '\u200a' || c = '\u2028' || c = '\u2029' ||
  c = '\u202f' || c = '\u205f' || c = '\u3000' || c = '\ufeff'

/-- JavaScript String.prototype.trimStart. -/
def jsTrimStart (s : JStr) : JStr := s.dropWhile jsWsChar

/-- JavaScript String.prototype.trim: drop whitespace at both ends. -/
def jsTrim (s : JStr) : JStr :=
  ((s.dropWhile jsWsChar).reverse.dropWhile jsWsChar).reverse

/-- JavaScript String.prototype.split with a single-character separator. -/
def splitOnChar (sep : Char) : JStr → List JStr
  | [] => [[]]
  | c :: cs =>
    match splitOnChar sep cs with
    | [] => [[c]]
    | h :: t => if c = sep then [] :: h :: t else (c :: h) :: t

/-- JavaScript Array.prototype.join with a string separator. -/
def joinWith (sep : JStr) : List JStr → JStr
  | [] => []
  | [x] => x
  | x :: y :: xs => x ++ sep ++ joinWith sep (y :: xs)

/-- Whether a JStr starts with the given pattern (String.prototype.startsWith). -/
def strStarts (pat : JStr) (s : JStr) : Bool :=
  match pat, s with
  | [], _ => true
  | _ :: _, [] => false
  | p :: ps, c :: cs => p = c && strStarts ps cs

/-- Whether a JStr ends with the given pattern (String.prototype.endsWith). -/
def strEnds (pat : JStr) (s : JStr) : Bool :=
  strStarts pat.reverse s.reverse

/-! ## Exact fraction arithmetic standing in for JavaScript numbers

The source computes delimiter scores, fixed-width thresholds and numeric sort
keys with IEEE-754 doubles.  Those computations are embedded with exact
(unnormalized) fractions: a pair of integers, compared by cross
multiplication.  JFrac.blt_iff_toRat below certifies that the comparison
agrees with the rational order whenever denominators are positive, which is
the case for every fraction the embedding constructs. -/

/-- An exact fraction: numerator and denominator, not normalized. -/
structure JFrac where
  num : Int
  den : Int
deriving DecidableEq

instance : Inhabited JFrac := ⟨⟨0, 1⟩⟩

/-- Fraction from a natural number. -/
def JFrac.ofNat (n : Nat) : JFrac := ⟨n, 1⟩

/-- Fraction from an integer. -/
def JFrac.ofInt (n : Int) : JFrac := ⟨n, 1⟩

/-- Fraction addition. -/
def JFrac.add (a b : JFrac) : JFrac := ⟨a.num * b.den + b.num * a.den, a.den * b.den⟩

/-- Fraction subtraction. -/
def JFrac.sub (a b : JFrac) : JFrac := ⟨a.num * b.den - b.num * a.den, a.den * b.den⟩

/-- Fraction multiplication. -/
def JFrac.mul (a b : JFrac) : JFrac := ⟨a.num * b.num, a.den * b.den⟩

/-- Fraction division. -/
def JFrac.div (a b : JFrac) : JFrac := ⟨a.num * b.den, a.den * b.num⟩

/-- Strict order on fractions by cross multiplication, corrected for the
signs of the denominators. -/
def JFrac.blt (a b : JFrac) : Bool :=
  (a.num * b.den - b.num * a.den) * a.den.sign * b.den.sign < 0

/-- Value equality of fractions (num/den as rationals). -/
def JFrac.beq (a b : JFrac) : Bool :=
  a.num * b.den = b.num * a.den

/-- Non-strict order on fractions. -/
def JFrac.ble (a b : JFrac) : Bool := !(JFrac.blt b a)

/-- The rational value of a fraction. -/
def JFrac.toRat (a : JFrac) : ℚ := (a.num : ℚ) / (a.den : ℚ)

/-! ## The delimited-text parser (parseCSV, src/app.js lines 615-663)

The source scans the text with an index `i`, a lookahead `text[i+1]`, the
two-state flag `inQuotes`, the accumulators `currentCell`, `currentRow` and
the output `rows`; `i++` inside the loop consumes a second character.  The
embedding recurses over the character list with an explicit two-character
view so that the lookahead and the double consumption are faithful. -/

/-- Keep a finished row only if at least one of its (already trimmed) cells
is non-empty, mirroring the row-push guards of parseCSV. -/
def csvPushRow (row : List JStr) (rows : List (List JStr)) : List (List JStr) :=
  if row.any (· ≠ []) then rows ++ [row] else rows

/-- The end-of-input flush of parseCSV: push the pending cell and keep the
pending row under the same non-empty guard, if anything is pending. -/
def csvFlush (cell : JStr) (row : List JStr) (rows : List (List JStr)) :
    List (List JStr) :=
  if cell ≠ [] ∨ row ≠ [] then csvPushRow (row ++ [jsTrim cell]) rows else rows

/-- The character loop of parseCSV.  The three top-level cases are: input
exhausted (flush), a last character without lookahead, and a character with
its lookahead.  Each branch transcribes one branch of the source loop. -/
def csvRun (d : Char) : List Char → Bool → JStr → List JStr →
    List (List JStr) → List (List JStr)
  | [], _, cell, row, rows => csvFlush cell row rows
  | [c], q, cell, row, rows =>
    if q then
      -- nextChar is undefined, so the escaped-quote branch cannot fire
      if c = '"' then csvRun d [] false cell row rows
      else csvRun d [] true (cell ++ [c]) row rows
    else
      if c = '"' then csvRun d [] true cell row rows
      else if c = d then csvRun d [] false [] (row ++ [jsTrim cell]) rows
      else if c = '\n' then csvRun d [] false [] [] (csvPushRow (row ++ [jsTrim cell]) rows)
      -- a final '\r' has no following '\n': it is dropped
      else if c = '\r' then csvRun d [] false cell row rows
      else csvRun d [] false (cell ++ [c]) row rows
  | c :: c2 :: cs, q, cell, row, rows =>
    if q then
      if c = '"' ∧ c2 = '"' then csvRun d cs true (cell ++ ['"']) row rows
      else if c = '"' then csvRun d (c2 :: cs) false cell row rows
      else csvRun d (c2 :: cs) true (cell ++ [c]) row rows
    else
      if c = '"' then csvRun d (c2 :: cs) true cell row rows
      else if c = d then csvRun d (c2 :: cs) false [] (row ++ [jsTrim cell]) rows
      else if c = '\n' then
        csvRun d (c2 :: cs) false [] [] (csvPushRow (row ++ [jsTrim cell]) rows)
      else if c = '\r' ∧ c2 = '\n' then
        csvRun d cs false [] [] (csvPushRow (row ++ [jsTrim cell]) rows)
      else if c ≠ '\r' then csvRun d (c2 :: cs) false (cell ++ [c]) row rows
      else csvRun d (c2 :: cs) false cell row rows

/-- parseCSV (src/app.js lines 615-663): quoted-field tokenizer producing
rows of trimmed cells. -/
def parseCSV (text : JStr) (d : Char) : List (List JStr) :=
  csvRun d text false [] [] []

/-! ## CSV serialization (dataToCSV, src/app.js lines 1022-1034) -/

/-- Double every double quote, as cell.replace of all quote occurrences by
two quotes does. -/
def doubleQuotes : JStr → JStr
  | [] => []
  | c :: cs => if c = '"' then '"' :: '"' :: doubleQuotes cs else c :: doubleQuotes cs

/-- The cell escape of dataToCSV: wrap in double quotes (doubling inner
quotes) iff the cell contains a comma, a double quote or a newline. -/
def escapeCell (cell : JStr) : JStr :=
  if cell.contains ',' || cell.contains '"' || cell.contains '\n' then
    '"' :: (doubleQuotes cell ++ ['"'])
  else cell

/-- One serialized row: escaped cells joined by commas. -/
def rowToCSV (row : List JStr) : JStr := joinWith [','] (row.map escapeCell)

/-- dataToCSV (src/app.js lines 1022-1034): the header row followed by the
data rows, rows joined by newlines. -/
def dataToCSV (headers : List JStr) (rows : List (List JStr)) : JStr :=
  joinWith ['\n'] ((headers :: rows).map rowToCSV)

/-! ## Claim C6: parseCSV as the specified two-state machine

The machine below is written from the words of the specification (section
4.2): state unquoted/quoted with cell/row/rows accumulators, one transition
per rule, each transition consuming one or two characters. -/

/-- The state of the specified delimited-text machine. -/
structure CsvState where
  quoted : Bool
  cell : JStr
  row : List JStr
  rows : List (List JStr)
deriving DecidableEq

/-- One transition of the specified machine: the rules of the claim in their
stated order, returning the next state and how many characters (1 or 2)
were consumed. -/
def csvSpecStep (d : Char) (st : CsvState) (c : Char) (ahead : Option Char) :
    CsvState × Nat :=
  if st.quoted then
    -- a double quote followed immediately by another emits one literal quote
    if c = '"' ∧ ahead = some '"' then ({ st with cell := st.cell ++ ['"'] }, 2)
    -- a lone double quote exits to unquoted
    else if c = '"' then ({ st with quoted := false }, 1)
    else ({ st with cell := st.cell ++ [c] }, 1)
  else
    -- a double quote while unquoted enters quoted
    if c = '"' then ({ st with quoted := true }, 1)
    -- the delimiter ends the cell, trimmed of surrounding whitespace
    else if c = d then ({ st with cell := [], row := st.row ++ [jsTrim st.cell] }, 1)
    -- a newline ends the row, kept only if at least one cell is non-empty
    else if c = '\n' then
      (let done := st.row ++ [jsTrim st.cell]
       ({ st with
          cell := [],
          row := [],
          rows := (if done.any (· ≠ []) then st.rows ++ [done] else st.rows) }), 1)
    -- a carriage return followed by a newline ends the row the same way
    else if c = '\r' ∧ ahead = some '\n' then
      (let done := st.row ++ [jsTrim st.cell]
       ({ st with
          cell := [],
          row := [],
          rows := (if done.any (· ≠ []) then st.rows ++ [done] else st.rows) }), 2)
    -- a lone carriage return is dropped
    else if c = '\r' then (st, 1)
    else ({ st with cell := st.cell ++ [c] }, 1)

/-- Run the specified machine over the text, providing each transition with
its one-character lookahead. -/
def csvSpecRun (d : Char) (st : CsvState) : List Char → CsvState
  | [] => st
  | [c] => (csvSpecStep d st c none).1
  | c :: c2 :: cs =>
    let r := csvSpecStep d st c (some c2)
    if r.2 = 2 then csvSpecRun d r.1 cs else csvSpecRun d r.1 (c2 :: cs)

/-- End of input flushes any pending cell/row under the same
at-least-one-non-empty-cell rule. -/
def csvSpecFinish (st : CsvState) : List (List JStr) :=
  if st.cell ≠ [] ∨ st.row ≠ [] then
    if (st.row ++ [jsTrim st.cell]).any (· ≠ []) then
      st.rows ++ [st.row ++ [jsTrim st.cell]]
    else st.rows
  else st.rows

/-- The specified machine as a parser. -/
def specParseCSV (text : JStr) (d : Char) : List (List JStr) :=
  csvSpecFinish (csvSpecRun d ⟨false, [], [], []⟩ text)

/-! ## The table model and the reconciler (src/app.js lines 553-594) -/

/-- A parsed table: name, headers and data rows (src/app.js table object
literals with fields name/headers/data). -/
structure JTable where
  name : JStr
  headers : List JStr
  data : List (List JStr)
deriving DecidableEq

instance : Inhabited JTable := ⟨⟨[], [], []⟩⟩

/-- The check of getCommonHeaders that every table has the same headers as
the first: equal length and equal value at each index. -/
def headersAllSame (tables : List JTable) (firstHeaders : List JStr) : Bool :=
  tables.all fun t =>
    t.headers.length = firstHeaders.length &&
    (t.headers.enum.all fun p => p.2 = firstHeaders.getD p.1 [])

/-- The union loop of getCommonHeaders: walk all headers of all tables and
push each one not seen before.  The source keeps a Set `seen` next to the
array `allHeaders` holding exactly the same elements; the embedding keeps
the single list and tests membership on it. -/
def unionHeaderLoop (tables : List JTable) : List JStr :=
  tables.foldl (fun acc t =>
    t.headers.foldl (fun acc2 h => if h ∈ acc2 then acc2 else acc2 ++ [h]) acc) []

/-- getCommonHeaders (src/app.js lines 553-579): the first table's headers
verbatim when all tables agree on headers, otherwise the first-seen union of
all headers. -/
def getCommonHeaders (tables : List JTable) : List JStr :=
  match tables with
  | [] => []
  | t0 :: _ =>
    if headersAllSame tables t0.headers then t0.headers
    else unionHeaderLoop tables

/-- padRowToHeaders (src/app.js lines 582-594): build a row sized to the
common headers, writing each source cell whose header occurs in the common
list (indexOf different from -1) and whose index is inside the row at the
first position of its header name; all other positions stay empty.  The
membership test stands for the source's indexOf-not-minus-one check. -/
def padRowToHeaders (tables : List JTable) (row : List JStr)
    (tableHeaders : List JStr) : List JStr :=
  let commonHeaders := getCommonHeaders tables
  tableHeaders.enum.foldl
    (fun res p =>
      if p.2 ∈ commonHeaders ∧ p.1 < row.length then
        res.set (commonHeaders.indexOf p.2) (row.getD p.1 [])
      else res)
    (List.replicate commonHeaders.length [])

/-- First-seen duplicate removal, stated structurally: keep the head and
deduplicate the tail purged of the head. -/
def firstSeenDedup : List JStr → List JStr
  | [] => []
  | x :: xs => x :: firstSeenDedup (xs.filter (· ≠ x))
termination_by l => l.length
decreasing_by
  simp only [List.length_cons]
  exact Nat.lt_succ_of_le (List.length_filter_le _ _)

/-! ## Claims C10 and C3: padRowToHeaders -/

/-- The write fold inside padRowToHeaders, abstracted over the list of
(index, header) pairs it walks. -/
def padWriteFold (common row : List JStr) (ps : List (Nat × JStr))
    (init : List JStr) : List JStr :=
  ps.foldl
    (fun res p =>
      if p.2 ∈ common ∧ p.1 < row.length then
        res.set (common.indexOf p.2) (row.getD p.1 [])
      else res)
    init

/-! ## Sorting (sortTable, src/app.js lines 830-860) -/

/-- The value of a JavaScript number as classified by the sort comparator:
NaN, an infinity, or a finite value (exact fraction). -/
inductive JNumV where
  | nan
  | inf (pos : Bool)
  | fin (q : JFrac)
deriving DecidableEq

/-- Numeric value of a digit character. -/
def digitVal (c : Char) : Nat := c.toNat - 48

/-- Value of a digit string. -/
def digitsToNat (s : JStr) : Nat := s.foldl (fun acc c => acc * 10 + digitVal c) 0

/-- Ten to an integer power as a fraction. -/
def pow10Frac (e : Int) : JFrac :=
  if 0 ≤ e then ⟨10 ^ e.toNat, 1⟩ else ⟨1, 10 ^ (-e).toNat⟩

/-- JavaScript parseFloat: skip leading whitespace, then read the longest
prefix shaped [+-]? (Infinity | digits [. digits?] | . digits) ([eE][+-]?
digits)?; NaN when no prefix parses.  Finite values are represented exactly
(the source rounds to the nearest IEEE-754 double; no property below
depends on quantities where that differs).  -/
def parseFloat (s : JStr) : JNumV :=
  let t := s.dropWhile jsWsChar
  let sgnNeg : Bool := t.head? = some '-'
  let t1 := if t.head? = some '-' || t.head? = some '+' then t.tail else t
  if strStarts (jstr ("Infinity")) t1 then JNumV.inf (!sgnNeg)
  else
    let ip := t1.takeWhile Char.isDigit
    let t2 := t1.drop ip.length
    let fp := if t2.head? = some '.' then t2.tail.takeWhile Char.isDigit else []
    let t3 := if t2.head? = some '.' then t2.tail.drop fp.length else t2
    if ip = [] ∧ fp = [] then JNumV.nan
    else
      let ex : Int :=
        if t3.head? = some 'e' || t3.head? = some 'E' then
          let r := t3.tail
          let eNeg : Bool := r.head? = some '-'
          let r1 := if r.head? = some '-' || r.head? = some '+' then r.tail else r
          let ed := r1.takeWhile Char.isDigit
          if ed = [] then 0
          else if eNeg then -(digitsToNat ed : Int) else (digitsToNat ed : Int)
        else 0
      let mant : Int := digitsToNat (ip ++ fp)
      JNumV.fin ((JFrac.ofInt (if sgnNeg then -mant else mant)).mul
        (pow10Frac (ex - fp.length)))

/-- ASCII lower-casing, standing in for String.prototype.toLowerCase (the
cells the properties evaluate are ASCII). -/
def jsToLower (s : JStr) : JStr :=
  s.map fun c => if 'A' ≤ c ∧ c ≤ 'Z' then Char.ofNat (c.toNat + 32) else c

/-- JavaScript string comparison: lexicographic by code point (identical to
code-unit order on the basic multilingual plane the cells live in). -/
def strLt : JStr → JStr → Bool
  | [], [] => false
  | [], _ :: _ => true
  | _ :: _, [] => false
  | a :: as, b :: bs =>
    if a.toNat < b.toNat then true
    else if b.toNat < a.toNat then false
    else strLt as bs

/-- The sign the sort callback's numeric branch produces: the sign of
numA - numB, with the ECMAScript SortCompare rule that a NaN comparator
value (infinity minus itself) counts as zero. -/
def numCmpSign (x y : JNumV) : Int :=
  match x, y with
  | JNumV.fin a, JNumV.fin b =>
    if JFrac.blt a b then -1 else if JFrac.blt b a then 1 else 0
  | JNumV.inf true, JNumV.inf true => 0
  | JNumV.inf false, JNumV.inf false => 0
  | JNumV.inf true, _ => 1
  | JNumV.inf false, _ => -1
  | _, JNumV.inf true => -1
  | _, JNumV.inf false => 1
  | _, _ => 0

/-- The sort callback of sortTable on two cell values: numeric comparison
when both parse as floats, otherwise lower-cased lexicographic comparison;
represented by the sign of the value the callback returns. -/
def cellCompare (asc : Bool) (a b : JStr) : Int :=
  let numA := parseFloat a
  let numB := parseFloat b
  if numA ≠ JNumV.nan ∧ numB ≠ JNumV.nan then
    if asc then numCmpSign numA numB else numCmpSign numB numA
  else
    let la := jsToLower a
    let lb := jsToLower b
    if strLt la lb then (if asc then -1 else 1)
    else if strLt lb la then (if asc then 1 else -1)
    else 0

/-- Indexing a row as the callback does: a[columnIndex] with undefined (and
the empty string, via the or-empty guard) mapped to the empty string. -/
def jsIdxOr (r : List JStr) (i : Int) : JStr :=
  if 0 ≤ i then r.getD i.toNat [] else []

/-- The sort callback on two rows at the sort column. -/
def rowCompare (asc : Bool) (col : Int) (a b : List JStr) : Int :=
  cellCompare asc (jsIdxOr a col) (jsIdxOr b col)

/-- Stable insertion into a sorted list: place x before the first element it
compares strictly below. -/
def insertSorted (cmp : List JStr → List JStr → Int) (x : List JStr) :
    List (List JStr) → List (List JStr)
  | [] => [x]
  | y :: ys => if cmp x y < 0 then x :: y :: ys else y :: insertSorted cmp x ys

/-- Array.prototype.sort modelled as a stable comparator sort (the
ECMAScript-mandated result for a consistent comparator). -/
def sortByCmp (cmp : List JStr → List JStr → Int) (l : List (List JStr)) :
    List (List JStr) :=
  l.foldl (fun acc x => insertSorted cmp x acc) []

/-- The canonical document state together with the table-set fields of the
FormatKing instance (src/app.js constructor, lines 3-10). -/
structure FKState where
  headers : List JStr
  data : List (List JStr)
  sortColumn : Int
  sortDirAsc : Bool
  filteredData : List (List JStr)
  tables : List JTable
  currentTableIndex : Int
deriving DecidableEq

/-- sortTable (src/app.js lines 830-860): toggle the direction when the
same column is sorted again, else select the column ascending; then sort
filteredData in place with the callback. -/
def sortTable (st : FKState) (col : Int) : FKState :=
  let asc := if st.sortColumn = col then !st.sortDirAsc else true
  { st with
    sortColumn := col,
    sortDirAsc := asc,
    filteredData := sortByCmp (rowCompare asc col) st.filteredData }

/-! ## The delimiter detector (detectDelimiter, src/app.js lines 114-139) -/

/-- The candidate delimiters, in their declared order. -/
def delimCandidates : List Char := [',', ';', '\t', '|']

/-- The score of one candidate over the sampled lines: per-line occurrence
counts, their mean and variance, score mean/(variance+1), zero unless the
mean is positive. -/
def delimScore (lines : List JStr) (d : Char) : JFrac :=
  let counts := lines.map fun line => line.count d
  let avg := (JFrac.ofNat (counts.foldl (· + ·) 0)).div (JFrac.ofNat counts.length)
  let variance := (counts.foldl
      (fun (sum : JFrac) (v : Nat) =>
        sum.add (((JFrac.ofNat v).sub avg).mul ((JFrac.ofNat v).sub avg)))
      (⟨0, 1⟩ : JFrac)).div (JFrac.ofNat counts.length)
  if JFrac.blt ⟨0, 1⟩ avg then avg.div (variance.add ⟨1, 1⟩) else ⟨0, 1⟩

/-- detectDelimiter (src/app.js lines 114-139): score each candidate over
the first five lines of the trimmed text and keep the first candidate whose
score strictly exceeds the best seen so far, starting from comma at zero. -/
def detectDelimiter (text : JStr) : Char :=
  let lines := (splitOnChar '\n' (jsTrim text)).take 5
  (delimCandidates.foldl
    (fun best d =>
      let score := delimScore lines d
      if JFrac.blt best.2 score then (d, score) else best)
    (',', (⟨0, 1⟩ : JFrac))).1

/-- The delimiter detector as the claim words it: identical scoring and
selection, but over the first five non-empty lines of the trimmed text
instead of the first five lines. -/
def detectDelimiterClaimNE (text : JStr) : Char :=
  let lines := (((splitOnChar '\n' (jsTrim text)).filter (· ≠ [])).take 5)
  (delimCandidates.foldl
    (fun best d =>
      let score := delimScore lines d
      if JFrac.blt best.2 score then (d, score) else best)
    (',', (⟨0, 1⟩ : JFrac))).1

/-! ## The box-table format (src/app.js lines 141-324)

The detection and separator regular expressions of the source are embedded
as character-list matchers.  A multiline-anchored pattern (flag m) matching
at some position is equivalent to matching from the last line start inside
its leading whitespace, so the tests walk line starts. -/

/-- The characters the regex dot does not match (line terminators). -/
def lineTermChar (c : Char) : Bool :=
  c = '\n' || c = '\r' || c = ' ' || c = ' '

/-- The lines of a text (String.prototype.split at newline). -/
def textLines (t : JStr) : List JStr := splitOnChar '\n' t

/-- One line matches the border pattern of leading whitespace, a plus, one
or more minus/plus, then a plus (the m-flagged test of hasBorderLines). -/
def plusBorderLine (l : JStr) : Bool :=
  match l.dropWhile jsWsChar with
  | '+' :: t => ((t.takeWhile fun c => c = '-' || c = '+').drop 1).contains '+'
  | _ => false

/-- One line matches leading whitespace, the delimiter, one or more
non-terminator characters, then the delimiter again (hasDataLines and
hasUnicodeDataLines of the source, for the ASCII and box-drawing pipes). -/
def pipeDataLine (delim : Char) (l : JStr) : Bool :=
  match l.dropWhile jsWsChar with
  | c :: t =>
    c = delim && ((t.takeWhile fun x => !(lineTermChar x)).drop 1).contains delim
  | [] => false

/-- The suffixes of the text starting right after each newline. -/
def anchorTails : JStr → List JStr
  | [] => []
  | c :: cs => if c = '\n' then cs :: anchorTails cs else anchorTails cs

/-- Every multiline anchor position: the whole text and each after-newline
suffix. -/
def anchorSuffixes (t : JStr) : List JStr := t :: anchorTails t

/-- A suffix matches one or more equals signs, whitespace containing a
newline, then the literal TABLE: (the hasTableHeader pattern).  The
whitespace class may span further newlines, exactly as in the source
pattern. -/
def eqThenTable (suf : JStr) : Bool :=
  let es := suf.takeWhile (· = '=')
  let r := suf.drop es.length
  let w := r.takeWhile jsWsChar
  !es.isEmpty && w.contains '\n' && strStarts (jstr ("TABLE:")) (r.drop w.length)

/-- The box-drawing characters of the unicode-border test. -/
def uniBoxChar (c : Char) : Bool :=
  c = '┌' || c = '┐' || c = '└' || c = '┘' || c = '├' || c = '┤' ||
  c = '┬' || c = '┴' || c = '┼' || c = '─' || c = '│'

/-- isDatabricksFormat (src/app.js lines 142-155): ASCII border plus data
lines, or an equals separator announcing a TABLE: header, or unicode
borders plus unicode data lines. -/
def isDatabricksFormat (text : JStr) : Bool :=
  let hasBorderLines := (textLines text).any plusBorderLine
  let hasDataLines := (textLines text).any (pipeDataLine ('|'))
  let hasTableHeader := (anchorSuffixes text).any eqThenTable || hasBorderLines
  let hasUnicodeBorders := text.any uniBoxChar
  let hasUnicodeDataLines := (textLines text).any (pipeDataLine ('│'))
  (hasBorderLines && hasDataLines) || hasTableHeader ||
    (hasUnicodeBorders && hasUnicodeDataLines)

/-- The TABLE: name pattern on a trimmed line: the literal TABLE:, then
whitespace, then a non-empty capture free of line terminators; the captured
name is trimmed.  Returns the name when the line matches. -/
def tableNameOf (line : JStr) : Option JStr :=
  if strStarts (jstr ("TABLE:")) line then
    let rest := line.drop 6
    let t := rest.dropWhile jsWsChar
    if !t.isEmpty && t.all (fun c => !(lineTermChar c)) then some (jsTrim rest)
    else none
  else none

/-- Strip the trailing run of commas (the comma-artifact replace). -/
def dropTrailingCommas (l : JStr) : JStr :=
  (l.reverse.dropWhile (· = ',')).reverse

/-- A full line of one or more equals signs. -/
def eqSepLine (l : JStr) : Bool := !l.isEmpty && l.all (· = '=')

/-- A full line: plus, one or more minus/plus, optional closing plus (the
ASCII separator with a tolerated missing closing character). -/
def asciiSepLine (l : JStr) : Bool :=
  match l with
  | '+' :: t => !t.isEmpty && t.all (fun c => c = '-' || c = '+')
  | _ => false

/-- A full line: a unicode opening border character, one or more horizontal
or junction characters, and an optional closing character. -/
def uniSepLine (l : JStr) : Bool :=
  match l with
  | c :: t =>
    (c = '┌' || c = '├' || c = '└') &&
    (let lastClose := match t.getLast? with
      | some x => x = '┐' || x = '┤' || x = '┘'
      | none => false
     let core := if lastClose then t.dropLast else t
     !core.isEmpty && core.all (fun x => x = '─' || x = '┬' || x = '┼' || x = '┴'))
  | [] => false

/-- Split the delimiter-stripped content of a data line into trimmed cells:
drop a trailing delimiter if present, split on the delimiter, trim each
cell. -/
def splitBoxCells (delim : Char) (content : JStr) : List JStr :=
  let c1 := if strEnds [delim] content then content.dropLast else content
  (splitOnChar delim c1).map jsTrim

/-- Nat rendered as its decimal digits. -/
def natStr (n : Nat) : JStr := (toString n).toList

/-- JavaScript or-default on a possibly missing, possibly empty name. -/
def jsNameOr (n : Option JStr) (d : JStr) : JStr :=
  match n with
  | some s => if s = [] then d else s
  | none => d

/-- The loop state of parseDatabricksFormat. -/
structure BoxSt where
  name : Option JStr
  rows : List (List JStr)
  inTable : Bool
  headerParsed : Bool
  headers : List JStr
  tables : List JTable

/-- Flush the in-progress table when it has both headers and rows, naming
nameless tables Table N. -/
def boxFlush (st : BoxSt) : List JTable :=
  if st.rows ≠ [] ∧ st.headers ≠ [] then
    st.tables ++
      [⟨jsNameOr st.name (jstr ("Table ") ++ natStr (st.tables.length + 1)),
        st.headers, st.rows⟩]
  else st.tables

/-- One line of the parseDatabricksFormat loop: TABLE: lines flush and
reset, separator lines only mark a table in progress, data lines starting
with a pipe become the header row once and data rows afterwards. -/
def boxStep (st : BoxSt) (rawLine : JStr) : BoxSt :=
  let line := jsTrim rawLine
  match tableNameOf line with
  | some nm =>
    { name := some nm, rows := [], inTable := false, headerParsed := false,
      headers := [], tables := boxFlush st }
  | none =>
    let cleanLine := jsTrim (dropTrailingCommas line)
    if eqSepLine cleanLine || asciiSepLine cleanLine || uniSepLine cleanLine then
      { st with inTable := true }
    else
      let isUni := cleanLine.head? = some '│'
      if cleanLine.head? = some '|' || isUni then
        let delim := if isUni then '│' else '|'
        let cells := splitBoxCells delim (cleanLine.drop 1)
        if st.headerParsed then { st with rows := st.rows ++ [cells] }
        else { st with headers := cells, headerParsed := true }
      else st

/-- The title condition of parseSingleAsciiTable: a non-empty trimmed line
that does not begin with a border or data character and is not an
equals-sign separator. -/
def titleCond (t : JStr) : Bool :=
  !t.isEmpty &&
  !(match t.head? with
    | some c => c = '┌' || c = '├' || c = '└' || c = '+'
    | none => false) &&
  !(match t.head? with
    | some c => c = '│' || c = '|'
    | none => false) &&
  !(eqSepLine t)

/-- Stop scanning for a title at the first line starting like a table. -/
def stopCond (t : JStr) : Bool :=
  match t.head? with
  | some c => c = '┌' || c = '+' || c = '│' || c = '|'
  | none => false

/-- Inner title confirmation: among the following lines (at most three), a
border start confirms a title, a data start cancels it. -/
def titleConfirm : List JStr → Bool
  | [] => false
  | l :: rest =>
    let n := jsTrim l
    if (match n.head? with
        | some c => c = '┌' || c = '+'
        | none => false) then true
    else if (match n.head? with
        | some c => c = '│' || c = '|'
        | none => false) then false
    else titleConfirm rest

/-- The title scan of parseSingleAsciiTable over the raw lines. -/
def scanTitle : List JStr → Option JStr
  | [] => none
  | l :: rest =>
    let t := jsTrim l
    if titleCond t && titleConfirm (rest.take 3) then some t
    else if stopCond t then none
    else scanTitle rest

/-- parseSingleAsciiTable (src/app.js lines 254-324): optional title line,
then first pipe-delimited line as headers and the rest as data, skipping
separator lines. -/
def parseSingleAsciiTable (text : JStr) : Option JTable :=
  let lines := textLines text
  let tableName := scanTitle lines
  let final := lines.foldl
    (fun (st : Bool × List JStr × List (List JStr)) rawLine =>
      let trimmed := jsTrim (dropTrailingCommas (jsTrim rawLine))
      if asciiSepLine trimmed || eqSepLine trimmed || uniSepLine trimmed then st
      else
        let isUni := trimmed.head? = some '│'
        if trimmed.head? = some '|' || isUni then
          let delim := if isUni then '│' else '|'
          let cells := splitBoxCells delim (trimmed.drop 1)
          if st.1 then (st.1, st.2.1, st.2.2 ++ [cells])
          else (true, cells, st.2.2)
        else st)
    (false, [], [])
  if final.2.1 ≠ [] then
    some ⟨jsNameOr tableName (jstr ("Table 1")), final.2.1, final.2.2⟩
  else none

/-- parseDatabricksFormat (src/app.js lines 158-251): walk the lines
accumulating named tables, flush the last one, and fall back to the single
ASCII table parse when no table was produced. -/
def parseDatabricksFormat (text : JStr) : List JTable :=
  let final := (textLines text).foldl boxStep ⟨none, [], false, false, [], []⟩
  let tables := boxFlush final
  if tables = [] then
    match parseSingleAsciiTable text with
    | some t => [t]
    | none => []
  else tables

/-! ## The Markdown-table format (src/app.js lines 327-371)

The separator-row pattern (optional pipe, dash cells with optional colons
joined by pipes, optional pipe, trailing whitespace, end anchor) is
embedded as a matcher with the one backtracking choice the pattern has: a
pipe can either open one more dash cell or be the final optional pipe. -/

/-- Parse one dash cell: whitespace, optional colon, two or more dashes,
optional colon.  Returns the remainder on success. -/
def mdCell (s : JStr) : Option JStr :=
  let s1 := s.dropWhile jsWsChar
  let s2 := if s1.head? = some ':' then s1.tail else s1
  let ds := s2.takeWhile (· = '-')
  if ds.length ≥ 2 then
    let s3 := s2.drop ds.length
    some (if s3.head? = some ':' then s3.tail else s3)
  else none

/-- After a completed dash cell: consume whitespace; the end anchor holds at
the end of input, or (multiline) before a newline inside the whitespace; a
pipe either starts one more cell, ends the row as the final optional pipe,
or both choices are tried (backtracking).  The group must repeat at least
once for the pattern to match. -/
def mdAfterCell (nl : Bool) : Nat → Nat → JStr → Bool
  | 0, _, _ => false
  | fuel + 1, groups, s =>
    let w := s.takeWhile jsWsChar
    let r := s.drop w.length
    let endHere := decide (groups ≥ 1) && (r.isEmpty || (nl && w.contains '\n'))
    match r with
    | '|' :: rest =>
      (match mdCell rest with
        | some s2 => mdAfterCell nl fuel (groups + 1) s2
        | none => false) ||
      endHere ||
      (decide (groups ≥ 1) &&
        (let w2 := rest.takeWhile jsWsChar
         (rest.drop w2.length).isEmpty || (nl && w2.contains '\n')))
    | _ => endHere

/-- The separator pattern matched from one anchor position. -/
def mdSepFrom (nl : Bool) (s : JStr) : Bool :=
  let s0 := if s.head? = some '|' then s.tail else s
  match mdCell s0 with
  | some s1 => mdAfterCell nl (s1.length + 1) 0 s1
  | none => false

/-- The separator pattern applied to a whole line (no multiline flag: the
anchor is the start, the dollar only the very end). -/
def mdSepLine (l : JStr) : Bool := mdSepFrom false l

/-- The m-flagged separator test over the whole text: some line-start
anchor matches. -/
def mdSepInText (t : JStr) : Bool := (anchorSuffixes t).any (mdSepFrom true)

/-- A line consisting only of whitespace, pipes, colons, stars and dashes
(the separator-like lines excluded from the data-line count). -/
def sepLikeLine (t : JStr) : Bool :=
  !t.isEmpty && t.all fun c => jsWsChar c || c = '|' || c = ':' || c = '*' || c = '-'

/-- isMarkdownTable (src/app.js lines 327-335): a separator row somewhere
in the text plus at least one non-blank line containing a pipe that is not
itself separator-like. -/
def isMarkdownTable (text : JStr) : Bool :=
  mdSepInText text &&
    (((textLines text).filter fun l => jsTrim l ≠ []).filter fun l =>
      l.contains '|' && !(sepLikeLine (jsTrim l))).length ≥ 1

/-- The leftmost greedy match of the block separator (newline, whitespace,
newline): the first newline followed, after whitespace, by another newline,
the matched middle being as long as possible.  Returns the text before the
match and the text after it. -/
def findBlockSep : JStr → Option (JStr × JStr)
  | [] => none
  | c :: cs =>
    if c = '\n' then
      let w := cs.takeWhile jsWsChar
      if w.contains '\n' then
        let k := w.length - 1 - (w.reverse.indexOf '\n')
        some ([], cs.drop (k + 1))
      else
        match findBlockSep cs with
        | some (b, a) => some (c :: b, a)
        | none => none
    else
      match findBlockSep cs with
      | some (b, a) => some (c :: b, a)
      | none => none

/-- String.prototype.split on the blank-line pattern, by repeated leftmost
matches (fuel-bounded by the text length). -/
def splitBlocks : Nat → JStr → List JStr
  | 0, t => [t]
  | fuel + 1, t =>
    match findBlockSep t with
    | some (b, a) => b :: splitBlocks fuel a
    | none => [t]

/-- Markdown row splitting: trim, drop one leading and one trailing pipe,
split on pipes, trim the cells. -/
def splitMdRow (line : JStr) : List JStr :=
  let s := jsTrim line
  let s1 := if s.head? = some '|' then s.tail else s
  let s2 := if strEnds (['|']) s1 then s1.dropLast else s1
  (splitOnChar '|' s2).map jsTrim

/-- parseMarkdownTable (src/app.js lines 338-371): per blank-line block,
locate the first separator line (it must not be the first line); the line
above it is the header row, later pipe-bearing lines are data rows; keep
blocks with at least one header cell and one data row, numbered Table N. -/
def parseMarkdownTable (text : JStr) : List JTable :=
  (splitBlocks (text.length + 1) text).foldl
    (fun tables block =>
      let lines := (textLines block).filter fun l => jsTrim l ≠ []
      match lines.findIdx? fun l => mdSepLine (jsTrim l) with
      | none => tables
      | some sepIndex =>
        if sepIndex < 1 then tables
        else
          let headers := splitMdRow (lines.getD (sepIndex - 1) [])
          let data := ((lines.drop (sepIndex + 1)).filter fun l =>
            l.contains '|').map splitMdRow
          if headers.length > 0 ∧ data.length > 0 then
            tables ++ [⟨jstr ("Table ") ++ natStr (tables.length + 1), headers, data⟩]
          else tables)
    []

/-! ## The JSON-array format (src/app.js lines 374-405)

JSON.parse is embedded as a fuel-bounded recursive-descent parser over the
JSON grammar.  Numbers are carried as their literal token: the source holds
IEEE-754 doubles and re-renders them on output; no property below inspects
a re-rendered number.  Object properties keep insertion order with
duplicate keys overwritten in place, and key enumeration puts array-index
keys first in ascending order, following JavaScript property order. -/

/-- A JSON value. -/
inductive JVal where
  | jnull
  | jbool (b : Bool)
  | jnum (lit : JStr)
  | jstrv (s : JStr)
  | jarr (xs : List JVal)
  | jobj (props : List (JStr × JVal))

/-- JSON whitespace (strictly space, tab, newline, carriage return). -/
def jsonWs (c : Char) : Bool := c = ' ' || c = '\t' || c = '\n' || c = '\r'

/-- Insert a parsed property: an existing key keeps its position and takes
the new value, a new key is appended. -/
def jsObjInsert (props : List (JStr × JVal)) (k : JStr) (v : JVal) :
    List (JStr × JVal) :=
  if props.any (fun p => p.1 = k) then
    props.map fun p => if p.1 = k then (k, v) else p
  else props ++ [(k, v)]

/-- Hex digit value, if any. -/
def hexVal (c : Char) : Option Nat :=
  if '0' ≤ c ∧ c ≤ '9' then some (c.toNat - 48)
  else if 'a' ≤ c ∧ c ≤ 'f' then some (c.toNat - 87)
  else if 'A' ≤ c ∧ c ≤ 'F' then some (c.toNat - 55)
  else none

/-- Parse one JSON string body after the opening quote.  Unicode escapes
are decoded as code points (surrogate pairs combined; a lone surrogate,
unrepresentable in a character list, becomes the replacement character). -/
def jsonStringBody : Nat → JStr → Option (JStr × JStr)
  | 0, _ => none
  | _ + 1, [] => none
  | fuel + 1, c :: cs =>
    if c = '"' then some ([], cs)
    else if c = '\\' then
      match cs with
      | [] => none
      | e :: cs2 =>
        let simpleEsc : Option Char :=
          if e = '"' then some '"' else if e = '\\' then some '\\'
          else if e = '/' then some '/' else if e = 'b' then some '\x08'
          else if e = 'f' then some '\x0c' else if e = 'n' then some '\n'
          else if e = 'r' then some '\r' else if e = 't' then some '\t'
          else none
        match simpleEsc with
        | some ch =>
          match jsonStringBody fuel cs2 with
          | some (body, rest) => some (ch :: body, rest)
          | none => none
        | none =>
          if e = 'u' then
            match cs2 with
            | h1 :: h2 :: h3 :: h4 :: cs3 =>
              match hexVal h1, hexVal h2, hexVal h3, hexVal h4 with
              | some a, some b, some c2, some d =>
                let n := ((a * 16 + b) * 16 + c2) * 16 + d
                if 0xd800 ≤ n ∧ n ≤ 0xdbff then
                  match cs3 with
                  | '\\' :: 'u' :: g1 :: g2 :: g3 :: g4 :: cs4 =>
                    match hexVal g1, hexVal g2, hexVal g3, hexVal g4 with
                    | some a2, some b2, some c3, some d2 =>
                      let m := ((a2 * 16 + b2) * 16 + c3) * 16 + d2
                      if 0xdc00 ≤ m ∧ m ≤ 0xdfff then
                        let cp := 0x10000 + (n - 0xd800) * 0x400 + (m - 0xdc00)
                        match jsonStringBody fuel cs4 with
                        | some (body, rest) =>
                          some ((Char.ofNat cp) :: body, rest)
                        | none => none
                      else
                        match jsonStringBody fuel cs3 with
                        | some (body, rest) => some ('�' :: body, rest)
                        | none => none
                    | _, _, _, _ =>
                      match jsonStringBody fuel cs3 with
                      | some (body, rest) => some ('�' :: body, rest)
                      | none => none
                  | _ =>
                    match jsonStringBody fuel cs3 with
                    | some (body, rest) => some ('�' :: body, rest)
                    | none => none
                else if 0xdc00 ≤ n ∧ n ≤ 0xdfff then
                  match jsonStringBody fuel cs3 with
                  | some (body, rest) => some ('�' :: body, rest)
                  | none => none
                else
                  match jsonStringBody fuel cs3 with
                  | some (body, rest) => some ((Char.ofNat n) :: body, rest)
                  | none => none
              | _, _, _, _ => none
            | _ => none
          else none
    else if c.toNat < 0x20 then none
    else
      match jsonStringBody fuel cs with
      | some (body, rest) => some (c :: body, rest)
      | none => none

/-- Parse a JSON number token (sign, integer part without leading zeros,
optional fraction, optional exponent), returning the literal. -/
def jsonNumberTok (s : JStr) : Option (JStr × JStr) :=
  let (sgn, s1) := if s.head? = some '-' then (['-'], s.tail) else ([], s)
  let ip := s1.takeWhile Char.isDigit
  if ip = [] then none
  else if ip.length > 1 ∧ ip.head? = some '0' then none
  else
    let s2 := s1.drop ip.length
    let (fr, s3) :=
      match s2 with
      | '.' :: r =>
        let ds := r.takeWhile Char.isDigit
        if ds = [] then ([], s2) else ('.' :: ds, r.drop ds.length)
      | _ => ([], s2)
    if s2.head? = some '.' ∧ fr = [] then none
    else
      let (ex, s4) :=
        match s3 with
        | e :: r =>
          if e = 'e' ∨ e = 'E' then
            let (es, r1) :=
              match r with
              | x :: rr => if x = '+' ∨ x = '-' then ([x], rr) else ([], r)
              | [] => ([], r)
            let ds := r1.takeWhile Char.isDigit
            if ds = [] then ([], s3) else (e :: (es ++ ds), r1.drop ds.length)
          else ([], s3)
        | [] => ([], s3)
      if s3.head? = some 'e' ∨ s3.head? = some 'E' then
        if ex = [] then none else some (sgn ++ ip ++ fr ++ ex, s4)
      else some (sgn ++ ip ++ fr ++ ex, s4)

mutual
/-- Parse one JSON value after skipping whitespace. -/
def jsonVal : Nat → JStr → Option (JVal × JStr)
  | 0, _ => none
  | fuel + 1, s =>
    let s := s.dropWhile jsonWs
    if strStarts (jstr ("null")) s then some (JVal.jnull, s.drop 4)
    else if strStarts (jstr ("true")) s then some (JVal.jbool true, s.drop 4)
    else if strStarts (jstr ("false")) s then some (JVal.jbool false, s.drop 5)
    else
      match s with
      | '"' :: cs =>
        match jsonStringBody (cs.length + 1) cs with
        | some (body, rest) => some (JVal.jstrv body, rest)
        | none => none
      | '[' :: cs =>
        let cs2 := cs.dropWhile jsonWs
        if cs2.head? = some ']' then some (JVal.jarr [], cs2.tail)
        else
          match jsonArrItems fuel cs with
          | some (xs, rest) => some (JVal.jarr xs, rest)
          | none => none
      | '{' :: cs =>
        let cs2 := cs.dropWhile jsonWs
        if cs2.head? = some '}' then some (JVal.jobj [], cs2.tail)
        else
          match jsonObjItems fuel cs [] with
          | some (props, rest) => some (JVal.jobj props, rest)
          | none => none
      | _ =>
        match jsonNumberTok s with
        | some (tok, rest) => some (JVal.jnum tok, rest)
        | none => none

/-- Parse the comma-separated items of a non-empty array, consuming the
closing bracket. -/
def jsonArrItems : Nat → JStr → Option (List JVal × JStr)
  | 0, _ => none
  | fuel + 1, s =>
    match jsonVal fuel s with
    | some (v, rest) =>
      let r := rest.dropWhile jsonWs
      match r with
      | ',' :: r2 =>
        (match jsonArrItems fuel r2 with
          | some (xs, rest2) => some (v :: xs, rest2)
          | none => none)
      | ']' :: r2 => some ([v], r2)
      | _ => none
    | none => none

/-- Parse the comma-separated properties of a non-empty object, consuming
the closing brace, with duplicate keys overwritten in place. -/
def jsonObjItems : Nat → JStr → List (JStr × JVal) →
    Option (List (JStr × JVal) × JStr)
  | 0, _, _ => none
  | fuel + 1, s, acc =>
    let s1 := s.dropWhile jsonWs
    match s1 with
    | '"' :: cs =>
      match jsonStringBody (cs.length + 1) cs with
      | some (key, rest) =>
        let r := rest.dropWhile jsonWs
        match r with
        | ':' :: r2 =>
          (match jsonVal fuel r2 with
            | some (v, rest2) =>
              let acc2 := jsObjInsert acc key v
              let r3 := rest2.dropWhile jsonWs
              match r3 with
              | ',' :: r4 => jsonObjItems fuel r4 acc2
              | '}' :: r4 => some (acc2, r4)
              | _ => none
            | none => none)
        | _ => none
      | none => none
    | _ => none
end

/-- JSON.parse: a single value with only whitespace around it. -/
def jsonParse (s : JStr) : Option JVal :=
  match jsonVal (s.length + 1) s with
  | some (v, rest) => if rest.dropWhile jsonWs = [] then some v else none
  | none => none

/-- Is the string a canonical array-index key (a canonical base-10 integer
below 2^32 - 1)?  Such keys are enumerated first, ascending. -/
def canonIdx (s : JStr) : Option Nat :=
  if s ≠ [] ∧ s.all Char.isDigit ∧ (s = ['0'] ∨ s.head? ≠ some '0') then
    let n := digitsToNat s
    if n < 4294967295 then some n else none
  else none

/-- Stable insertion into a list sorted ascending by the numeric key. -/
def insByNat (x : Nat × α) : List (Nat × α) → List (Nat × α)
  | [] => [x]
  | y :: ys => if x.1 < y.1 then x :: y :: ys else y :: insByNat x ys

/-- Object.keys: array-index keys first in ascending numeric order, then
the remaining keys in insertion order. -/
def jsKeys (props : List (JStr × JVal)) : List JStr :=
  let ks := props.map Prod.fst
  let idx := ks.filterMap fun k => (canonIdx k).map fun n => (n, k)
  (idx.foldl (fun acc p => insByNat p acc) []).map Prod.snd ++
    ks.filter fun k => canonIdx k = none

/-- Property lookup on a parsed object. -/
def jsPropGet (props : List (JStr × JVal)) (k : JStr) : Option JVal :=
  (props.find? fun p => p.1 = k).map Prod.snd

/-- Lowercase hex digit. -/
def hexDigitChar (n : Nat) : Char :=
  if n < 10 then Char.ofNat (48 + n) else Char.ofNat (87 + n)

/-- JSON.stringify escaping of one string character. -/
def jsonQuoteChar (c : Char) : JStr :=
  if c = '"' then ['\\', '"']
  else if c = '\\' then ['\\', '\\']
  else if c = '\x08' then ['\\', 'b']
  else if c = '\t' then ['\\', 't']
  else if c = '\n' then ['\\', 'n']
  else if c = '\x0c' then ['\\', 'f']
  else if c = '\r' then ['\\', 'r']
  else if c.toNat < 0x20 then
    ['\\', 'u', '0', '0', hexDigitChar (c.toNat / 16), hexDigitChar (c.toNat % 16)]
  else [c]

/-- JSON.stringify rendering of a string. -/
def jsonQuote (s : JStr) : JStr := '"' :: (s.map jsonQuoteChar).flatten ++ ['"']

/-- Reorder already-rendered properties into Object.keys order (the
rendering is pointwise, so reordering before or after agrees). -/
def orderProps (ps : List (JStr × JStr)) : List (JStr × JStr) :=
  let idx := ps.filterMap fun p => (canonIdx p.1).map fun n => (n, p)
  (idx.foldl (fun acc q => insByNat q acc) []).map Prod.snd ++
    ps.filter fun p => canonIdx p.1 = none

mutual
/-- JSON.stringify (no spacing).  A number renders as its stored literal:
the source would re-render the double, which agrees on canonical literals
and is never inspected by a claim. -/
def jsonStringify : JVal → JStr
  | JVal.jnull => jstr ("null")
  | JVal.jbool b => if b then jstr ("true") else jstr ("false")
  | JVal.jnum lit => lit
  | JVal.jstrv s => jsonQuote s
  | JVal.jarr xs => '[' :: joinWith [','] (jsonStringifyArr xs) ++ [']']
  | JVal.jobj props =>
    '\x7b' :: joinWith [','] ((orderProps (jsonStringifyProps props)).map
      fun p => jsonQuote p.1 ++ ':' :: p.2) ++ ['\x7d']

/-- Render each array element. -/
def jsonStringifyArr : List JVal → List JStr
  | [] => []
  | v :: vs => jsonStringify v :: jsonStringifyArr vs

/-- Render each property value, keeping its key. -/
def jsonStringifyProps : List (JStr × JVal) → List (JStr × JStr)
  | [] => []
  | (k, v) :: ps => (k, jsonStringify v) :: jsonStringifyProps ps
end

/-- isJSONArray (src/app.js lines 374-384): the trimmed text starts with a
bracket, parses as JSON, and is a non-empty array whose first element is a
non-null, non-array object. -/
def isJSONArray (text : JStr) : Bool :=
  let trimmed := jsTrimStart text
  if !(strStarts (jstr ("[")) trimmed) then false
  else
    match jsonParse trimmed with
    | some (JVal.jarr (JVal.jobj _ :: _)) => true
    | _ => false

/-- parseJSONArray (src/app.js lines 387-405): headers are the union of the
objects' keys in first-seen Object.keys order; each row maps a header to
the property's value rendered as a cell (missing or null becomes empty,
objects and arrays are stringified).  The source is only reached with
isJSONArray true; on unparseable input (where it would throw) the model
returns the empty table. -/
def parseJSONArray (text : JStr) : JTable :=
  match jsonParse (jsTrimStart text) with
  | some (JVal.jarr xs) =>
    let objs := xs.filterMap fun v =>
      match v with
      | JVal.jobj props => some props
      | _ => none
    let headers := objs.foldl
      (fun acc props => acc ++ (jsKeys props).filter fun k => k ∉ acc) []
    let data := objs.map fun props => headers.map fun h =>
      match jsPropGet props h with
      | none => []
      | some JVal.jnull => []
      | some (JVal.jobj ps) => jsonStringify (JVal.jobj ps)
      | some (JVal.jarr vs) => jsonStringify (JVal.jarr vs)
      | some (JVal.jbool b) => if b then jstr ("true") else jstr ("false")
      | some (JVal.jnum lit) => lit
      | some (JVal.jstrv s) => s
    ⟨jstr ("JSON Data"), headers, data⟩
  | _ => ⟨jstr ("JSON Data"), [], []⟩

/-! ## The fixed-width format (src/app.js lines 408-521)

The 80% threshold `spaceCount[i] >= contentLines.length * 0.8` is modelled
as the exact comparison 5 * spaceCount[i] ≥ 4 * contentLines.length; for
every line count arising here the double product n * 0.8 rounds to a value
with the same integer comparisons, and no claim exercises the boundary. -/

/-- A line consisting only of whitespace, dashes and equals signs
(the regex of src/app.js lines 418 and 460 applied to a non-empty line). -/
def wsDashEqLine (l : JStr) : Bool :=
  l ≠ [] && l.all fun c => jsWsChar c || c = '-' || c = '='

/-- Does the line contain two adjacent characters drawn from dash and
equals (the regex [-=]\x7b2,\x7d)? -/
def hasDashRun : JStr → Bool
  | c1 :: c2 :: cs =>
    ((c1 = '-' || c1 = '=') && (c2 = '-' || c2 = '=')) || hasDashRun (c2 :: cs)
  | _ => false

/-- The non-blank lines step shared by both fixed-width functions:
split on newline, keep lines with a non-empty trim. -/
def fwLines (text : JStr) : List JStr :=
  (splitOnChar '\n' text).filter fun l => jsTrim l ≠ []

/-- Largest line length (0 on no lines, where the source would get
-Infinity and fail the length guards earlier). -/
def maxLineLen (lines : List JStr) : Nat :=
  lines.foldl (fun m l => max m l.length) 0

/-- How many of the lines carry a space at position i, positions past the
end of a line reading as a space. -/
def spaceCountAt (lines : List JStr) (i : Nat) : Nat :=
  lines.countP fun l => l.getD i ' ' = ' '

/-- isFixedWidthTable (src/app.js lines 408-448): at least three non-blank
lines, a longest line of five or more characters, at least two content
(non-underline-ish) lines, and at least one gap of two or more columns
that are spaces in 80% or more of the content lines. -/
def isFixedWidthTable (text : JStr) : Bool :=
  let lines := fwLines text
  if lines.length < 3 then false
  else
    let maxLen := maxLineLen lines
    if maxLen < 5 then false
    else
      let contentLines := lines.filter fun l => !wsDashEqLine l
      if contentLines.length < 2 then false
      else
        let st := (List.range maxLen).foldl
          (fun (st : Bool × Nat × Nat) i =>
            if 5 * spaceCountAt contentLines i ≥ 4 * contentLines.length then
              let gw := st.2.1 + 1
              if gw ≥ 2 ∧ st.1 = false then (true, gw, st.2.2 + 1)
              else (st.1, gw, st.2.2)
            else (false, 0, st.2.2))
          (false, 0, 0)
        st.2.2 ≥ 1

/-- Pad a line with spaces to the given length. -/
def padEndSp (l : JStr) (n : Nat) : JStr :=
  l ++ List.replicate (n - l.length) ' '

/-- The cut positions of parseFixedWidthTable: the middle of every closed
gap of two or more threshold-space columns, left to right.  A gap still
open when the scan ends is discarded, as in the source. -/
def fwCuts (contentLines : List JStr) (maxLen : Nat) : List Nat :=
  let st := (List.range maxLen).foldl
    (fun (st : Bool × Nat × List Nat) i =>
      if 5 * spaceCountAt contentLines i ≥ 4 * contentLines.length then
        if st.1 then st else (true, i, st.2.2)
      else
        if st.1 then
          (false, st.2.1,
            if i - st.2.1 ≥ 2 then st.2.2 ++ [(st.2.1 + i) / 2] else st.2.2)
        else st)
    (false, 0, [])
  st.2.2

/-- Slice a line at the cut positions, trimming each piece. -/
def sliceLine (cuts : List Nat) (line : JStr) : List JStr :=
  let st := cuts.foldl
    (fun (st : Nat × List JStr) cut =>
      (cut, st.2 ++ [jsTrim ((line.drop st.1).take (cut - st.1))]))
    (0, [])
  st.2 ++ [jsTrim (line.drop st.1)]

/-- parseFixedWidthTable (src/app.js lines 451-521): pad the non-blank
lines, drop underline rows, cut at the middle of each wide space gap, and
slice; the first content line is the headers, later all-empty rows are
dropped; none when there are too few lines, no cut, or no data row. -/
def parseFixedWidthTable (text : JStr) : Option JTable :=
  let lines := fwLines text
  if lines.length < 2 then none
  else
    let maxLen := maxLineLen lines
    let padded := lines.map fun l => padEndSp l maxLen
    let contentLines := padded.filter fun l => !(wsDashEqLine l && hasDashRun l)
    if h : contentLines.length < 2 then none
    else
      let cuts := fwCuts contentLines maxLen
      if cuts = [] then none
      else
        let headers := sliceLine cuts (contentLines.head (by
          intro hnil
          rw [hnil] at h
          simp at h))
        let data := (contentLines.tail.map (sliceLine cuts)).filter
          fun row => row.any fun c => c ≠ []
        if data = [] then none
        else some ⟨jstr ("Table 1"), headers, data⟩

/-! ## The import pipeline (src/app.js lines 524-550, 665-741, 761-786)

Rendering, toasts and the table-selector dropdown mutate only the DOM and
are outside the state model. -/

/-- processData (src/app.js lines 761-786): nothing changes on zero rows;
otherwise rows are padded to the widest row with empty cells, the first row
becomes the headers when the first-row-header box is checked (otherwise
Column 1, Column 2, ... names), filteredData restarts as a copy of the data
and the sort column resets to -1. -/
def processData (st : FKState) (firstRowHeader : Bool)
    (rows : List (List JStr)) : FKState :=
  if rows.length = 0 then st
  else
    let maxCols := rows.foldl (fun m r => max m r.length) 0
    let rows2 := rows.map fun row => row ++ List.replicate (maxCols - row.length) []
    if firstRowHeader ∧ rows2.length > 0 then
      { st with
        headers := rows2.headD []
        data := rows2.tail
        filteredData := rows2.tail
        sortColumn := -1 }
    else
      { st with
        headers := (rows2.headD []).enum.map fun p =>
          jstr ("Column ") ++ natStr (p.1 + 1)
        data := rows2
        filteredData := rows2
        sortColumn := -1 }

/-- switchToTable (src/app.js lines 524-550): index -1 builds the combined
all-tables view with the table name as first column; an index inside the
table list shows that table; any other index changes nothing.  In every
shown view filteredData restarts as a copy of the data and the sort column
resets. -/
def switchToTable (st : FKState) (index : Int) : FKState :=
  if index = -1 then
    let dt := st.tables.foldl
      (fun acc t => acc ++ t.data.map fun row =>
        t.name :: padRowToHeaders st.tables row t.headers) []
    { st with
      currentTableIndex := -1
      headers := jstr ("Table") :: getCommonHeaders st.tables
      data := dt
      filteredData := dt
      sortColumn := -1 }
  else if 0 ≤ index ∧ index < st.tables.length then
    let t := st.tables.getD index.toNat ⟨[], [], []⟩
    { st with
      currentTableIndex := index
      headers := t.headers
      data := t.data
      filteredData := t.data
      sortColumn := -1 }
  else st

/-- The shared tail of the four detector branches of formatFromText: store
the parsed tables and show the default view, all-tables for more than one
table and the single table otherwise.  The JSON and fixed-width branches
hard-code switchToTable 0, which coincides since they store one table. -/
def applyTables (st : FKState) (tabs : List JTable) : FKState :=
  switchToTable { st with tables := tabs } (if tabs.length > 1 then -1 else 0)

/-- The delimiter dropdown: auto-detection, the escaped tab entry, or a
literal delimiter character. -/
inductive DelimSel where
  | auto
  | tab
  | lit (c : Char)
deriving DecidableEq

/-- The delimiter resolution of the CSV fallback (src/app.js lines 729-734). -/
def resolveDelimiter (sel : DelimSel) (text : JStr) : Char :=
  match sel with
  | DelimSel.auto => detectDelimiter text
  | DelimSel.tab => '\t'
  | DelimSel.lit c => c

/-- formatFromText (src/app.js lines 665-741), translated branch by
branch: each detector branch fires when its detection test passes and its
parser produces tables, the JSON parser always producing exactly one table
object and the fixed-width parser owning its match unless it returns null;
otherwise the CSV fallback clears the table list and processes the parsed
rows. -/
def formatFromText (st : FKState) (input : JStr) (sel : DelimSel)
    (firstRowHeader : Bool) : FKState :=
  let text := jsTrim input
  if text = [] then st
  else if isDatabricksFormat text ∧ (parseDatabricksFormat text).length > 0 then
    applyTables st (parseDatabricksFormat text)
  else if isMarkdownTable text ∧ (parseMarkdownTable text).length > 0 then
    applyTables st (parseMarkdownTable text)
  else if isJSONArray text then
    applyTables st [parseJSONArray text]
  else if isFixedWidthTable text ∧ (parseFixedWidthTable text).isSome then
    applyTables st (parseFixedWidthTable text).toList
  else
    processData { st with tables := [] } firstRowHeader
      (parseCSV text (resolveDelimiter sel text))

/-- One classifier step: the detection test paired with the parser, the
parser's result read as a list of tables. -/
def detectorSteps : List ((JStr → Bool) × (JStr → List JTable)) :=
  [(isDatabricksFormat, parseDatabricksFormat),
   (isMarkdownTable, parseMarkdownTable),
   (isJSONArray, fun t => [parseJSONArray t]),
   (isFixedWidthTable, fun t => (parseFixedWidthTable t).toList)]

/-- The priority dispatch: the first step whose detection test passes and
whose parser produces at least one table owns the input. -/
def firstMatch : List ((JStr → Bool) × (JStr → List JTable)) → JStr →
    Option (List JTable)
  | [], _ => none
  | (det, par) :: rest, t =>
    if det t then
      if par t ≠ [] then some (par t) else firstMatch rest t
    else firstMatch rest t

/-! ## Theorems -/

/-- The cross-multiplication comparison agrees with the rational order when
both denominators are positive (as they are throughout the embedding). -/
theorem JFrac.blt_iff_toRat (a b : JFrac) (ha : 0 < a.den) (hb : 0 < b.den) :
    a.blt b = true ↔ a.toRat < b.toRat := by
  rw [JFrac.blt, JFrac.toRat, JFrac.toRat,
    div_lt_div_iff₀ (by exact_mod_cast ha) (by exact_mod_cast hb),
    Int.sign_eq_one_of_pos ha, Int.sign_eq_one_of_pos hb]
  simp only [mul_one, decide_eq_true_eq, sub_neg]
  exact ⟨fun h => by exact_mod_cast h, fun h => by exact_mod_cast h⟩

/-- Value equality of fractions agrees with rational equality when both
denominators are nonzero. -/
theorem JFrac.beq_iff_toRat (a b : JFrac) (ha : a.den ≠ 0) (hb : b.den ≠ 0) :
    a.beq b = true ↔ a.toRat = b.toRat := by
  rw [JFrac.beq, JFrac.toRat, JFrac.toRat,
    div_eq_div_iff (by exact_mod_cast ha) (by exact_mod_cast hb)]
  simp only [decide_eq_true_eq]
  exact ⟨fun h => by exact_mod_cast h, fun h => by exact_mod_cast h⟩

/-! ## Step lemmas for the parseCSV character machine -/

/-- An unquoted ordinary character is appended to the current cell. -/
theorem csvRun_plainChar (d c : Char) (rest : List Char) (cell : JStr)
    (row : List JStr) (rows : List (List JStr))
    (h1 : c ≠ '"') (h2 : c ≠ d) (h3 : c ≠ '\n') (h4 : c ≠ '\r') :
    csvRun d (c :: rest) false cell row rows =
      csvRun d rest false (cell ++ [c]) row rows := by
  cases rest <;> simp [csvRun, h1, h2, h3, h4]

/-- A quoted character other than a double quote is appended to the cell. -/
theorem csvRun_quotedChar (d c : Char) (rest : List Char) (cell : JStr)
    (row : List JStr) (rows : List (List JStr)) (h : c ≠ '"') :
    csvRun d (c :: rest) true cell row rows =
      csvRun d rest true (cell ++ [c]) row rows := by
  cases rest <;> simp [csvRun, h]

/-- Two adjacent double quotes in the quoted state emit one literal quote. -/
theorem csvRun_quotePair (d : Char) (rest : List Char) (cell : JStr)
    (row : List JStr) (rows : List (List JStr)) :
    csvRun d ('"' :: '"' :: rest) true cell row rows =
      csvRun d rest true (cell ++ ['"']) row rows := by
  simp [csvRun]

/-- A lone double quote in the quoted state returns to the unquoted state. -/
theorem csvRun_quoteClose (d : Char) (rest : List Char) (cell : JStr)
    (row : List JStr) (rows : List (List JStr)) (h : rest.head? ≠ some '"') :
    csvRun d ('"' :: rest) true cell row rows =
      csvRun d rest false cell row rows := by
  cases rest with
  | nil => simp [csvRun]
  | cons c2 cs =>
    have hc2 : c2 ≠ '"' := by intro he; exact h (by simp [he])
    simp [csvRun, hc2]

/-- A double quote in the unquoted state enters the quoted state. -/
theorem csvRun_quoteOpen (d : Char) (rest : List Char) (cell : JStr)
    (row : List JStr) (rows : List (List JStr)) :
    csvRun d ('"' :: rest) false cell row rows =
      csvRun d rest true cell row rows := by
  cases rest <;> simp [csvRun]

/-- The delimiter in the unquoted state ends the cell (trimmed). -/
theorem csvRun_delim (d : Char) (rest : List Char) (cell : JStr)
    (row : List JStr) (rows : List (List JStr)) (h : d ≠ '"') :
    csvRun d (d :: rest) false cell row rows =
      csvRun d rest false [] (row ++ [jsTrim cell]) rows := by
  cases rest <;> simp [csvRun, h]

/-- A newline in the unquoted state ends the row, applying the non-empty
keep rule. -/
theorem csvRun_newline (d : Char) (rest : List Char) (cell : JStr)
    (row : List JStr) (rows : List (List JStr)) (h : d ≠ '\n') :
    csvRun d ('\n' :: rest) false cell row rows =
      csvRun d rest false [] [] (csvPushRow (row ++ [jsTrim cell]) rows) := by
  cases rest <;> simp [csvRun, Ne.symm h]

/-- A run of unquoted ordinary characters accumulates into the cell. -/
theorem csvRun_plainCells (d : Char) (xs : List Char)
    (h : ∀ c ∈ xs, c ≠ '"' ∧ c ≠ d ∧ c ≠ '\n' ∧ c ≠ '\r') :
    ∀ (rest : List Char) (cell : JStr) (row : List JStr) (rows : List (List JStr)),
    csvRun d (xs ++ rest) false cell row rows =
      csvRun d rest false (cell ++ xs) row rows := by
  induction xs with
  | nil => intro rest cell row rows; simp
  | cons x xs ih =>
    intro rest cell row rows
    have hx := h x (by simp)
    rw [List.cons_append, csvRun_plainChar d x _ _ _ _ hx.1 hx.2.1 hx.2.2.1 hx.2.2.2,
      ih (fun c hc => h c (by simp [hc]))]
    simp

/-- Processing the quote-doubled image of a cell in the quoted state
accumulates exactly the original cell. -/
theorem csvRun_quotedCells (d : Char) (xs : List Char) :
    ∀ (rest : List Char) (cell : JStr) (row : List JStr) (rows : List (List JStr)),
    csvRun d (doubleQuotes xs ++ rest) true cell row rows =
      csvRun d rest true (cell ++ xs) row rows := by
  induction xs with
  | nil => intro rest cell row rows; simp [doubleQuotes]
  | cons x xs ih =>
    intro rest cell row rows
    by_cases hx : x = '"'
    · subst hx
      have hd : doubleQuotes ('"' :: xs) = '"' :: '"' :: doubleQuotes xs := by
        simp [doubleQuotes]
      rw [hd, List.cons_append, List.cons_append, csvRun_quotePair, ih]
      simp
    · have hd : doubleQuotes (x :: xs) = x :: doubleQuotes xs := by
        simp [doubleQuotes, hx]
      rw [hd, List.cons_append, csvRun_quotedChar d x _ _ _ _ hx, ih]
      simp

/-- Processing one escaped cell from the unquoted state accumulates the cell
verbatim, provided the cell holds no carriage return and the continuation
does not begin with a double quote. -/
theorem csvRun_escCell (c : JStr) (hCR : c.contains '\r' = false)
    (rest : List Char) (cell : JStr) (row : List JStr) (rows : List (List JStr))
    (hrest : rest.head? ≠ some '"') :
    csvRun ',' (escapeCell c ++ rest) false cell row rows =
      csvRun ',' rest false (cell ++ c) row rows := by
  have hcr : '\r' ∉ c := by simpa using hCR
  rw [escapeCell]
  by_cases hq : c.contains ',' || c.contains '"' || c.contains '\n'
  · rw [if_pos hq]
    have : ('"' :: (doubleQuotes c ++ ['"'])) ++ rest =
        '"' :: (doubleQuotes c ++ ('"' :: rest)) := by simp
    rw [this, csvRun_quoteOpen, csvRun_quotedCells, csvRun_quoteClose _ _ _ _ _ hrest]
  · rw [if_neg hq]
    simp only [Bool.or_eq_true, not_or, Bool.not_eq_true] at hq
    have hq1 : ',' ∉ c := by simpa using hq.1.1
    have hq2 : '"' ∉ c := by simpa using hq.1.2
    have hq3 : '\n' ∉ c := by simpa using hq.2
    apply csvRun_plainCells
    intro ch hch
    refine ⟨?_, ?_, ?_, ?_⟩
    · intro he; subst he; exact hq2 hch
    · intro he; subst he; exact hq1 hch
    · intro he; subst he; exact hq3 hch
    · intro he; subst he; exact hcr hch

/-- A serialized row followed by a newline is parsed back to its trimmed
cells, appended to the pending row, under the keep rule. -/
theorem csvRun_rowNL (r : List JStr) (hne : r ≠ [])
    (hCR : ∀ c ∈ r, c.contains '\r' = false) :
    ∀ (rest : List Char) (curRow : List JStr) (rows : List (List JStr)),
    csvRun ',' (rowToCSV r ++ ('\n' :: rest)) false [] curRow rows =
      csvRun ',' rest false [] [] (csvPushRow (curRow ++ r.map jsTrim) rows) := by
  induction r with
  | nil => exact absurd rfl hne
  | cons c tail ih =>
    intro rest curRow rows
    cases tail with
    | nil =>
      have hr : rowToCSV [c] = escapeCell c := rfl
      rw [hr, csvRun_escCell c (hCR c (by simp)) _ _ _ _ (by simp),
        csvRun_newline _ _ _ _ _ (by decide)]
      simp
    | cons c' cs =>
      have hr : rowToCSV (c :: c' :: cs) =
          escapeCell c ++ (',' :: rowToCSV (c' :: cs)) := by
        simp [rowToCSV, joinWith]
      rw [hr, List.append_assoc, List.cons_append,
        csvRun_escCell c (hCR c (by simp)) _ _ _ _ (by simp),
        csvRun_delim _ _ _ _ _ (by decide),
        ih (by simp) (fun x hx => hCR x (by simp [hx]))]
      simp

/-- A serialized row at the end of the input is flushed: the pending cell
and the keep rule reproduce the trimmed cells. -/
theorem csvRun_rowEnd (r : List JStr) (hne : r ≠ [])
    (hCR : ∀ c ∈ r, c.contains '\r' = false) :
    ∀ (curRow : List JStr) (rows : List (List JStr)),
    csvRun ',' (rowToCSV r) false [] curRow rows =
      if r.getLast?.getD [] ≠ [] ∨ curRow ≠ [] ∨ r.dropLast ≠ [] then
        csvPushRow (curRow ++ r.map jsTrim) rows
      else rows := by
  induction r with
  | nil => exact absurd rfl hne
  | cons c tail ih =>
    intro curRow rows
    cases tail with
    | nil =>
      have hr : rowToCSV [c] ++ [] = rowToCSV [c] := by simp
      rw [← hr]
      have hr2 : rowToCSV [c] = escapeCell c := rfl
      rw [hr2, csvRun_escCell c (hCR c (by simp)) _ _ _ _ (by simp)]
      simp [csvRun, csvFlush]
    | cons c' cs =>
      have hr : rowToCSV (c :: c' :: cs) =
          escapeCell c ++ (',' :: rowToCSV (c' :: cs)) := by
        simp [rowToCSV, joinWith]
      rw [hr, csvRun_escCell c (hCR c (by simp)) _ _ _ _ (by simp),
        csvRun_delim _ _ _ _ _ (by decide),
        ih (by simp) (fun x hx => hCR x (by simp [hx]))]
      simp only [List.nil_append]
      have hguard : curRow ++ [jsTrim c] ≠ [] := by simp
      rw [if_pos (Or.inr (Or.inl hguard)), if_pos (Or.inr (Or.inr (by simp)))]
      simp

/-- Serialized rows are parsed back to their trimmed images when every row
has a cell that trims non-empty and no cell holds a carriage return. -/
theorem csvRun_allRows (rs : List (List JStr))
    (h1 : ∀ r ∈ rs, ∃ c ∈ r, jsTrim c ≠ [])
    (hCR : ∀ r ∈ rs, ∀ c ∈ r, c.contains '\r' = false) :
    ∀ (rows : List (List JStr)),
    csvRun ',' (joinWith ['\n'] (rs.map rowToCSV)) false [] [] rows =
      rows ++ rs.map (fun r => r.map jsTrim) := by
  induction rs with
  | nil => intro rows; simp [joinWith, csvRun, csvFlush]
  | cons r tail ih =>
    intro rows
    have hner : r ≠ [] := by
      obtain ⟨c, hc, _⟩ := h1 r (by simp)
      exact fun he => by simp [he] at hc
    have hkeep : csvPushRow (r.map jsTrim) rows = rows ++ [r.map jsTrim] := by
      rw [csvPushRow, if_pos]
      obtain ⟨c, hc, hct⟩ := h1 r (by simp)
      simp only [List.any_eq_true, decide_eq_true_eq]
      exact ⟨jsTrim c, List.mem_map_of_mem _ hc, hct⟩
    cases tail with
    | nil =>
      have hj : joinWith ['\n'] ([r].map rowToCSV) = rowToCSV r := rfl
      rw [hj, csvRun_rowEnd r hner (hCR r (by simp))]
      rw [if_pos]
      · simpa using hkeep
      · cases r with
        | nil => exact absurd rfl hner
        | cons c cs =>
          cases cs with
          | nil =>
            left
            obtain ⟨x, hx, hxt⟩ := h1 [c] (by simp)
            simp only [List.mem_singleton] at hx
            subst hx
            simp only [List.getLast?_singleton, Option.getD_some]
            intro he
            rw [he] at hxt
            exact hxt rfl
          | cons c2 cs2 => right; right; simp
    | cons r2 tail2 =>
      have hj : joinWith ['\n'] ((r :: r2 :: tail2).map rowToCSV) =
          rowToCSV r ++ ('\n' :: joinWith ['\n'] ((r2 :: tail2).map rowToCSV)) := by
        simp [joinWith]
      rw [hj, csvRun_rowNL r hner (hCR r (by simp)),
        ih (fun x hx => h1 x (by simp [hx])) (fun x hx => hCR x (by simp [hx]))]
      simp only [List.nil_append] at hkeep ⊢
      rw [hkeep]
      simp

/-! ## Claim C1: the toCsv / parseCSV round trip -/

/-- C1 (corrected): serializing headers and rows with dataToCSV and
re-parsing the output with parseCSV at delimiter comma reproduces the
headers row followed by the data rows with every cell trimmed, provided no
cell contains a carriage return and every row (the headers row included)
has at least one cell that is non-empty after trimming.  Without these
provisos the claim fails (see claim1_counterexample): an all-blank row is
dropped entirely, and a lone carriage return in an unquoted cell is
deleted. -/
theorem claim1_roundtrip (hs : List JStr) (rows : List (List JStr))
    (h1 : ∀ r ∈ hs :: rows, ∃ c ∈ r, jsTrim c ≠ [])
    (hCR : ∀ r ∈ hs :: rows, ∀ c ∈ r, c.contains '\r' = false) :
    parseCSV (dataToCSV hs rows) ',' =
      (hs :: rows).map (fun r => r.map jsTrim) := by
  rw [parseCSV, dataToCSV, csvRun_allRows (hs :: rows) h1 hCR []]
  simp

/-- Witness for C1: the round trip applied to concrete headers and rows
containing a comma, a quote and a newline inside cells. -/
theorem claim1_roundtrip_witness :
    parseCSV (dataToCSV [jstr ("a,x"), jstr ("b\"y")]
        [[jstr (" 1 "), jstr ("c\nd")]]) ',' =
      ([[jstr ("a,x"), jstr ("b\"y")], [jstr (" 1 "), jstr ("c\nd")]]).map
        (fun r => r.map jsTrim) :=
  claim1_roundtrip [jstr ("a,x"), jstr ("b\"y")] [[jstr (" 1 "), jstr ("c\nd")]]
    (by decide) (by decide)

/-- Counterexample to C1 as stated: with headers ["a"] and rows
[["x\ry"], [" "]], re-parsing the serialized output yields [["a"], ["xy"]]:
the carriage return is deleted (not a whitespace-trim of the cell ends) and
the all-blank row is dropped, so the original rows are not reproduced even
modulo trimming. -/
theorem claim1_counterexample :
    parseCSV (dataToCSV [jstr ("a")] [[jstr ("x\ry")], [jstr (" ")]]) ',' =
        [[jstr ("a")], [jstr ("xy")]] ∧
      parseCSV (dataToCSV [jstr ("a")] [[jstr ("x\ry")], [jstr (" ")]]) ',' ≠
        ([[jstr ("a")], [jstr ("x\ry")], [jstr (" ")]]).map
          (fun r => r.map jsTrim) := by
  constructor
  · decide
  · decide

/-- A carriage return followed by a newline in the unquoted state ends the
row like a newline and consumes both characters. -/
theorem csvRun_crlf (d : Char) (rest : List Char) (cell : JStr)
    (row : List JStr) (rows : List (List JStr)) (h : d ≠ '\r') :
    csvRun d ('\r' :: '\n' :: rest) false cell row rows =
      csvRun d rest false [] [] (csvPushRow (row ++ [jsTrim cell]) rows) := by
  simp [csvRun, Ne.symm h]

/-- A lone carriage return (not followed by a newline) in the unquoted state
is dropped. -/
theorem csvRun_loneCR (d : Char) (rest : List Char) (cell : JStr)
    (row : List JStr) (rows : List (List JStr)) (h1 : d ≠ '\r')
    (h2 : rest.head? ≠ some '\n') :
    csvRun d ('\r' :: rest) false cell row rows =
      csvRun d rest false cell row rows := by
  cases rest with
  | nil => simp [csvRun, Ne.symm h1]
  | cons c2 cs =>
    have hc2 : c2 ≠ '\n' := by intro he; exact h2 (by simp [he])
    simp [csvRun, Ne.symm h1, hc2]

/-- Unfold one transition of the specified machine run. -/
theorem csvSpecRun_cons (d : Char) (st : CsvState) (c : Char) (rest : List Char) :
    csvSpecRun d st (c :: rest) =
      (if (csvSpecStep d st c rest.head?).2 = 2 then
        csvSpecRun d (csvSpecStep d st c rest.head?).1 rest.tail
      else csvSpecRun d (csvSpecStep d st c rest.head?).1 rest) := by
  cases rest with
  | nil => by_cases h : (csvSpecStep d st c none).2 = 2 <;> simp [csvSpecRun, h]
  | cons c2 cs => simp [csvSpecRun]

/-- The code loop agrees with the specified machine from every state. -/
theorem csvRun_eq_specRun (d : Char) :
    ∀ (n : Nat) (text : List Char), text.length ≤ n →
    ∀ (q : Bool) (cell : JStr) (row : List JStr) (rows : List (List JStr)),
    csvRun d text q cell row rows =
      csvSpecFinish (csvSpecRun d ⟨q, cell, row, rows⟩ text) := by
  intro n
  induction n with
  | zero =>
    intro text hlen q cell row rows
    have : text = [] := List.length_eq_zero.mp (Nat.le_zero.mp hlen)
    subst this
    simp [csvRun, csvSpecRun, csvSpecFinish, csvFlush, csvPushRow]
  | succ n ih =>
    intro text hlen q cell row rows
    match text with
    | [] => simp [csvRun, csvSpecRun, csvSpecFinish, csvFlush, csvPushRow]
    | c :: rest =>
      have hrest : rest.length ≤ n := by
        simp only [List.length_cons] at hlen; omega
      rw [csvSpecRun_cons]
      by_cases hq : q
      · subst hq
        by_cases h1 : c = '"'
        · subst h1
          by_cases h2 : rest.head? = some '"'
          · obtain ⟨rest', hr⟩ : ∃ rest', rest = '"' :: rest' := by
              cases rest with
              | nil => simp at h2
              | cons x xs =>
                simp only [List.head?_cons, Option.some.injEq] at h2
                exact ⟨xs, by rw [h2]⟩
            subst hr
            rw [csvRun_quotePair,
              ih rest' (by simp only [List.length_cons] at hrest; omega)]
            simp [csvSpecStep]
          · rw [csvRun_quoteClose _ _ _ _ _ h2, ih rest hrest]
            simp [csvSpecStep, h2]
        · rw [csvRun_quotedChar _ _ _ _ _ _ h1, ih rest hrest]
          simp [csvSpecStep, h1]
      · simp only [Bool.not_eq_true] at hq
        subst hq
        by_cases h1 : c = '"'
        · subst h1
          rw [csvRun_quoteOpen, ih rest hrest]
          simp [csvSpecStep]
        · by_cases h2 : c = d
          · subst h2
            rw [csvRun_delim _ _ _ _ _ h1, ih rest hrest]
            simp [csvSpecStep, h1]
          · by_cases h3 : c = '\n'
            · subst h3
              rw [csvRun_newline _ _ _ _ _ (Ne.symm h2), ih rest hrest]
              simp [csvSpecStep, h1, h2, csvPushRow]
            · by_cases h4 : c = '\r'
              · subst h4
                by_cases h5 : rest.head? = some '\n'
                · obtain ⟨rest', hr⟩ : ∃ rest', rest = '\n' :: rest' := by
                    cases rest with
                    | nil => simp at h5
                    | cons x xs =>
                      simp only [List.head?_cons, Option.some.injEq] at h5
                      exact ⟨xs, by rw [h5]⟩
                  subst hr
                  rw [csvRun_crlf _ _ _ _ _ (Ne.symm h2),
                    ih rest' (by simp only [List.length_cons] at hrest; omega)]
                  simp [csvSpecStep, h1, h2, h3, csvPushRow]
                · rw [csvRun_loneCR _ _ _ _ _ (Ne.symm h2) h5, ih rest hrest]
                  simp [csvSpecStep, h1, h2, h3, h5]
              · rw [csvRun_plainChar _ _ _ _ _ _ h1 h2 h3 h4, ih rest hrest]
                simp [csvSpecStep, h1, h2, h3, h4]

/-- C6: for every input text and delimiter, parseCSV behaves exactly as the
two-state (unquoted/quoted) machine of the specification: quote handling,
escaped quotes, delimiter and newline handling with the trim and
non-empty-row rules, dropped lone carriage returns and the end-of-input
flush. -/
theorem claim6_parseCSV_state_machine (text : JStr) (d : Char) :
    parseCSV text d = specParseCSV text d :=
  csvRun_eq_specRun d text.length text (Nat.le_refl _) false [] [] []

/-- The headersAllSame check of the source is exactly list equality of every
table's headers with the given first headers. -/
theorem headersAllSame_iff (tables : List JTable) (fh : List JStr) :
    headersAllSame tables fh = true ↔ ∀ t ∈ tables, t.headers = fh := by
  rw [headersAllSame, List.all_eq_true]
  refine forall_congr' fun t => forall_congr' fun _ => ?_
  rw [Bool.and_eq_true, List.all_eq_true]
  constructor
  · rintro ⟨hlen, hidx⟩
    have hlen' : t.headers.length = fh.length := by simpa using hlen
    refine List.ext_getElem hlen' fun n h1 h2 => ?_
    have hm : (n, t.headers[n]) ∈ t.headers.enum :=
      List.mk_mem_enum_iff_getElem?.mpr (List.getElem?_eq_getElem h1)
    have h5 : t.headers[n] = fh.getD n [] :=
      of_decide_eq_true (hidx (n, t.headers[n]) hm)
    rwa [List.getD_eq_getElem fh [] h2] at h5
  · rintro rfl
    refine ⟨by simp, fun p hp => ?_⟩
    obtain ⟨i, x⟩ := p
    rw [List.mk_mem_enum_iff_getElem?] at hp
    obtain ⟨h1, hx⟩ := List.getElem?_eq_some.1 hp
    refine decide_eq_true ?_
    show x = t.headers.getD i []
    rw [List.getD_eq_getElem t.headers [] h1]
    exact hx.symm

/-- The push-if-unseen fold of the source equals appending the first-seen
deduplication of the not-yet-seen elements. -/
theorem insFold_eq_firstSeenDedup (l : List JStr) :
    ∀ acc : List JStr,
    l.foldl (fun acc2 h => if h ∈ acc2 then acc2 else acc2 ++ [h]) acc =
      acc ++ firstSeenDedup (l.filter (· ∉ acc)) := by
  induction l with
  | nil => intro acc; simp [firstSeenDedup]
  | cons x xs ih =>
    intro acc
    by_cases hx : x ∈ acc
    · rw [List.foldl_cons, if_pos hx, ih]
      have : (x :: xs).filter (· ∉ acc) = xs.filter (· ∉ acc) := by
        rw [List.filter_cons]
        simp [hx]
      rw [this]
    · rw [List.foldl_cons, if_neg hx, ih]
      have h1 : (x :: xs).filter (· ∉ acc) = x :: xs.filter (· ∉ acc) := by
        rw [List.filter_cons]
        simp [hx]
      have h2 : xs.filter (· ∉ acc ++ [x]) =
          (xs.filter (· ∉ acc)).filter (· ≠ x) := by
        rw [List.filter_filter]
        refine List.filter_congr fun a _ => ?_
        by_cases h3 : a = x <;> by_cases h4 : a ∈ acc <;> simp [h3, h4]
      rw [h1, h2]
      have h3 : firstSeenDedup (x :: xs.filter (· ∉ acc)) =
          x :: firstSeenDedup ((xs.filter (· ∉ acc)).filter (· ≠ x)) := by
        rw [firstSeenDedup]
      rw [h3]
      simp

/-! ## Claim C4: getCommonHeaders -/

/-- C4: for every non-empty table list, if every table's headers equal the
first table's headers then getCommonHeaders returns exactly that header
list; otherwise it returns the first-seen union of all headers with
duplicates removed. -/
theorem claim4_getCommonHeaders (t0 : JTable) (ts : List JTable) :
    ((∀ t ∈ t0 :: ts, t.headers = t0.headers) →
        getCommonHeaders (t0 :: ts) = t0.headers) ∧
      ((¬ ∀ t ∈ t0 :: ts, t.headers = t0.headers) →
        getCommonHeaders (t0 :: ts) =
          firstSeenDedup (((t0 :: ts).map (·.headers)).flatten)) := by
  constructor
  · intro hsame
    rw [getCommonHeaders, if_pos ((headersAllSame_iff _ _).mpr hsame)]
  · intro hdiff
    rw [getCommonHeaders,
      if_neg (fun hc => hdiff ((headersAllSame_iff _ _).mp hc))]
    rw [unionHeaderLoop]
    have h0 : List.foldl (fun acc t =>
          t.headers.foldl (fun acc2 h => if h ∈ acc2 then acc2 else acc2 ++ [h]) acc)
          ([] : List JStr) (t0 :: ts) =
        List.foldl (fun acc2 h => if h ∈ acc2 then acc2 else acc2 ++ [h]) []
          (((t0 :: ts).map (·.headers)).flatten) := by
      rw [List.foldl_flatten, List.foldl_map]
    rw [h0, insFold_eq_firstSeenDedup]
    have hfil : (((t0 :: ts).map (·.headers)).flatten).filter (· ∉ ([] : List JStr)) =
        ((t0 :: ts).map (·.headers)).flatten := by
      refine List.filter_eq_self.mpr fun a _ => by simp
    rw [hfil]
    simp

/-- Witness for C4: both branches at concrete table lists: two tables with
equal duplicated headers keep them verbatim; two tables with different
headers produce the deduplicated first-seen union. -/
theorem claim4_getCommonHeaders_witness :
    getCommonHeaders
        [⟨jstr ("t1"), [jstr ("a"), jstr ("a")], []⟩,
         ⟨jstr ("t2"), [jstr ("a"), jstr ("a")], []⟩] =
          [jstr ("a"), jstr ("a")] ∧
      getCommonHeaders
        [⟨jstr ("t1"), [jstr ("a"), jstr ("b")], []⟩,
         ⟨jstr ("t2"), [jstr ("b"), jstr ("c")], []⟩] =
          firstSeenDedup
            ((([⟨jstr ("t1"), [jstr ("a"), jstr ("b")], []⟩,
              ⟨jstr ("t2"), [jstr ("b"), jstr ("c")], []⟩] :
                List JTable).map (·.headers)).flatten) :=
  ⟨(claim4_getCommonHeaders _ _).1 (by decide),
    (claim4_getCommonHeaders _ _).2 (by decide)⟩

/-- padRowToHeaders is the write fold over the enumerated source headers
started from an all-empty row of the common length. -/
theorem padRowToHeaders_eq_fold (tables : List JTable) (row ths : List JStr) :
    padRowToHeaders tables row ths =
      padWriteFold (getCommonHeaders tables) row ths.enum
        (List.replicate (getCommonHeaders tables).length []) := rfl

/-- The write fold never changes the length of the array it fills. -/
theorem padWriteFold_length (common row : List JStr) :
    ∀ (ps : List (Nat × JStr)) (init : List JStr),
    (padWriteFold common row ps init).length = init.length := by
  intro ps
  induction ps with
  | nil => intro init; rfl
  | cons p ps ih =>
    intro init
    rw [padWriteFold, List.foldl_cons]
    by_cases hc : p.2 ∈ common ∧ p.1 < row.length
    · rw [if_pos hc]
      rw [show List.foldl _ (init.set (common.indexOf p.2) (row.getD p.1 [])) ps =
          padWriteFold common row ps (init.set (common.indexOf p.2) (row.getD p.1 []))
          from rfl, ih, List.length_set]
    · rw [if_neg hc]
      exact ih init

/-- A position no walked pair writes to keeps its initial value. -/
theorem padWriteFold_getElem?_none (common row : List JStr) (j : Nat) :
    ∀ (ps : List (Nat × JStr)) (init : List JStr),
    (∀ p ∈ ps, p.2 ∈ common ∧ p.1 < row.length → common.indexOf p.2 ≠ j) →
    (padWriteFold common row ps init)[j]? = init[j]? := by
  intro ps
  induction ps with
  | nil => intro init _; rfl
  | cons p ps ih =>
    intro init hn
    rw [padWriteFold, List.foldl_cons]
    by_cases hc : p.2 ∈ common ∧ p.1 < row.length
    · rw [if_pos hc]
      rw [show List.foldl _ (init.set (common.indexOf p.2) (row.getD p.1 [])) ps =
          padWriteFold common row ps (init.set (common.indexOf p.2) (row.getD p.1 []))
          from rfl,
        ih _ (fun q hq => hn q (by simp [hq])),
        List.getElem?_set_ne (hn p (by simp) hc)]
    · rw [if_neg hc]
      exact ih init (fun q hq => hn q (by simp [hq]))

/-- A position written by some walked pair, all of whose writers write the
same value, ends up holding that value. -/
theorem padWriteFold_getElem?_write (common row : List JStr) (j : Nat) (v : JStr) :
    ∀ (ps : List (Nat × JStr)) (init : List JStr), j < init.length →
    (∃ p ∈ ps, (p.2 ∈ common ∧ p.1 < row.length) ∧ common.indexOf p.2 = j) →
    (∀ p ∈ ps, p.2 ∈ common ∧ p.1 < row.length → common.indexOf p.2 = j →
      row.getD p.1 [] = v) →
    (padWriteFold common row ps init)[j]? = some v := by
  intro ps
  induction ps with
  | nil =>
    intro init _ hex _
    obtain ⟨p, hp, _⟩ := hex
    exact absurd hp (List.not_mem_nil p)
  | cons p ps ih =>
    intro init hj hex huni
    rw [padWriteFold, List.foldl_cons]
    by_cases hc : p.2 ∈ common ∧ p.1 < row.length
    · rw [if_pos hc]
      rw [show List.foldl _ (init.set (common.indexOf p.2) (row.getD p.1 [])) ps =
          padWriteFold common row ps (init.set (common.indexOf p.2) (row.getD p.1 []))
          from rfl]
      by_cases hj2 : common.indexOf p.2 = j
      · by_cases hex2 : ∃ q ∈ ps, (q.2 ∈ common ∧ q.1 < row.length) ∧
            common.indexOf q.2 = j
        · exact ih _ (by rw [List.length_set]; exact hj) hex2
            (fun q hq => huni q (by simp [hq]))
        · rw [padWriteFold_getElem?_none common row j ps _
            (fun q hq hqc hqj => hex2 ⟨q, hq, hqc, hqj⟩)]
          rw [hj2, List.getElem?_set_self hj,
            huni p (by simp) hc hj2]
      · have hex2 : ∃ q ∈ ps, (q.2 ∈ common ∧ q.1 < row.length) ∧
            common.indexOf q.2 = j := by
          obtain ⟨q, hq, hqc, hqj⟩ := hex
          rcases List.mem_cons.mp hq with h | h
          · exact absurd (h ▸ hqj) hj2
          · exact ⟨q, h, hqc, hqj⟩
        exact ih _ (by rw [List.length_set]; exact hj) hex2
          (fun q hq => huni q (by simp [hq]))
    · rw [if_neg hc]
      have hex2 : ∃ q ∈ ps, (q.2 ∈ common ∧ q.1 < row.length) ∧
          common.indexOf q.2 = j := by
        obtain ⟨q, hq, hqc, hqj⟩ := hex
        rcases List.mem_cons.mp hq with h | h
        · exact absurd (h ▸ hqc) hc
        · exact ⟨q, h, hqc, hqj⟩
      exact ih init hj hex2 (fun q hq => huni q (by simp [hq]))

/-- C10: the row padRowToHeaders builds always has exactly the length of the
common header list, whatever the lengths of the input row and of the source
header list. -/
theorem claim10_padRow_length (tables : List JTable) (row ths : List JStr) :
    (padRowToHeaders tables row ths).length = (getCommonHeaders tables).length := by
  rw [padRowToHeaders_eq_fold, padWriteFold_length, List.length_replicate]

/-- The index found by indexOf for a member is inside the list. -/
theorem jstr_indexOf_lt_length {a : JStr} : ∀ {l : List JStr},
    a ∈ l → l.indexOf a < l.length := by
  intro l
  induction l with
  | nil => intro h; exact absurd h (List.not_mem_nil a)
  | cons b l ih =>
    intro h
    rw [List.indexOf_cons]
    by_cases hb : (b == a) = true
    · simp [hb]
    · have ha : a ∈ l := by
        rcases List.mem_cons.mp h with h1 | h1
        · exact absurd (by simp [h1]) hb
        · exact h1
      simp only [hb, cond_false, List.length_cons]
      exact Nat.succ_lt_succ (ih ha)

/-- The list holds the sought element at the position indexOf finds. -/
theorem jstr_getElem?_indexOf {a : JStr} : ∀ {l : List JStr},
    a ∈ l → l[l.indexOf a]? = some a := by
  intro l
  induction l with
  | nil => intro h; exact absurd h (List.not_mem_nil a)
  | cons b l ih =>
    intro h
    rw [List.indexOf_cons]
    by_cases hb : (b == a) = true
    · have hba : b = a := by simpa using hb
      simp [hb, hba]
    · have ha : a ∈ l := by
        rcases List.mem_cons.mp h with h1 | h1
        · exact absurd (by simp [h1]) hb
        · exact h1
      simp only [hb, cond_false]
      simpa using ih ha

/-- C3 (corrected): when the source header list has no duplicate names,
every source cell whose header occurs in the common header list and whose
index is inside the source row is placed at the first position of that
header name in the common list — no such value is dropped — and every
position no such cell is placed at holds the empty string.  With duplicate
source headers the claim as stated fails (see claim3_counterexample):
cells of like-named headers overwrite one another at the shared position. -/
theorem claim3_padRowToHeaders (tables : List JTable) (row ths : List JStr)
    (hnd : ths.Nodup) :
    (∀ (i : Nat) (h : JStr), ths[i]? = some h →
        h ∈ getCommonHeaders tables → i < row.length →
        (padRowToHeaders tables row ths)[(getCommonHeaders tables).indexOf h]? =
          some (row.getD i [])) ∧
      (∀ j : Nat, j < (getCommonHeaders tables).length →
        (∀ (i : Nat) (h : JStr), ths[i]? = some h →
          h ∈ getCommonHeaders tables → i < row.length →
          (getCommonHeaders tables).indexOf h ≠ j) →
        (padRowToHeaders tables row ths)[j]? = some ([] : JStr)) := by
  constructor
  · intro i h hi hmem hlt
    rw [padRowToHeaders_eq_fold]
    refine padWriteFold_getElem?_write _ _ _ _ _ _ ?_ ?_ ?_
    · rw [List.length_replicate]
      exact jstr_indexOf_lt_length hmem
    · exact ⟨(i, h), List.mk_mem_enum_iff_getElem?.mpr hi, ⟨hmem, hlt⟩, rfl⟩
    · rintro ⟨i', h'⟩ hq ⟨hmem', hlt'⟩ hidx
      have hi' : ths[i']? = some h' := List.mk_mem_enum_iff_getElem?.mp hq
      have hh : h' = h := by
        have e1 : (getCommonHeaders tables)[(getCommonHeaders tables).indexOf h']? =
            some h' := jstr_getElem?_indexOf hmem'
        have e2 : (getCommonHeaders tables)[(getCommonHeaders tables).indexOf h]? =
            some h := jstr_getElem?_indexOf hmem
        rw [hidx, e2] at e1
        exact (Option.some.injEq _ _ ▸ e1.symm)
      subst hh
      have hlen : i' < ths.length := by
        by_contra hc
        rw [List.getElem?_eq_none (Nat.le_of_not_lt hc)] at hi'
        exact Option.noConfusion hi'
      have : i' = i := List.getElem?_inj hlen hnd (hi'.trans hi.symm)
      rw [this]
  · intro j hj hnone
    rw [padRowToHeaders_eq_fold,
      padWriteFold_getElem?_none _ _ _ _ _ ?_]
    · rw [List.getElem?_replicate, if_pos hj]
    · rintro ⟨i, h⟩ hq ⟨hmem, hlt⟩
      exact hnone i h (List.mk_mem_enum_iff_getElem?.mp hq) hmem hlt

/-- Witness for C3: one table with headers [a, b]; the source headers
[b, a] with the one-cell row ["1"] place the cell at the position of b and
leave the position of a (index 0) empty. -/
theorem claim3_padRowToHeaders_witness :
    (padRowToHeaders [⟨jstr ("t"), [jstr ("a"), jstr ("b")], []⟩] [jstr ("1")]
        [jstr ("b"), jstr ("a")])[(getCommonHeaders
          [⟨jstr ("t"), [jstr ("a"), jstr ("b")], []⟩]).indexOf (jstr ("b"))]? =
        some (([jstr ("1")] : List JStr).getD 0 []) ∧
      (padRowToHeaders [⟨jstr ("t"), [jstr ("a"), jstr ("b")], []⟩] [jstr ("1")]
        [jstr ("b"), jstr ("a")])[0]? = some ([] : JStr) :=
  ⟨(claim3_padRowToHeaders _ _ _ (by decide)).1 0 (jstr ("b")) (by decide)
      (by decide) (by decide),
    (claim3_padRowToHeaders _ _ _ (by decide)).2 0 (by decide)
      (by
        intro i h hi hmem hlt
        have hi0 : i = 0 := by
          have : i < ([jstr ("1")] : List JStr).length := hlt
          simp only [List.length_singleton] at this
          omega
        subst hi0
        have hh : h = jstr ("b") := (show jstr ("b") = h by simpa using hi).symm
        subst hh
        decide)⟩

/-- Counterexample to C3 as stated: with duplicate source headers [a, a]
and row ["1", "2"], both cells target the first position of a; the later
write wins, the value "1" is dropped from the result even though its header
occurs in the common list and its index is inside the row. -/
theorem claim3_counterexample :
    jstr ("a") ∈ getCommonHeaders
        [⟨jstr ("t"), [jstr ("a"), jstr ("a")], [[jstr ("1"), jstr ("2")]]⟩] ∧
      padRowToHeaders
          [⟨jstr ("t"), [jstr ("a"), jstr ("a")], [[jstr ("1"), jstr ("2")]]⟩]
          [jstr ("1"), jstr ("2")] [jstr ("a"), jstr ("a")] =
        [jstr ("2"), []] ∧
      jstr ("1") ∉ padRowToHeaders
          [⟨jstr ("t"), [jstr ("a"), jstr ("a")], [[jstr ("1"), jstr ("2")]]⟩]
          [jstr ("1"), jstr ("2")] [jstr ("a"), jstr ("a")] := by
  refine ⟨by decide, by decide, by decide⟩

/-! ## Claims C7 and C8: sorting -/

/-- C7: two cells that both parse as floats are compared numerically (the
sign of their exact difference), not lexically; sorting the one-column rows
10, 2, 9 ascending yields 2, 9, 10; and within the column 10, 9, abc the
numeric cells compare numerically between themselves (10 after 9, although
10 is lexically below 9) while comparisons against the non-numeric cell
fall back to lexicographic order. -/
theorem claim7_numeric_sort :
    (∀ (a b : JStr) (qa qb : JFrac), parseFloat a = JNumV.fin qa →
        parseFloat b = JNumV.fin qb →
        cellCompare true a b =
          (if JFrac.blt qa qb then -1 else if JFrac.blt qb qa then 1 else 0)) ∧
      sortByCmp (rowCompare true 0) [[jstr ("10")], [jstr ("2")], [jstr ("9")]] =
        [[jstr ("2")], [jstr ("9")], [jstr ("10")]] ∧
      cellCompare true (jstr ("10")) (jstr ("9")) = 1 ∧
      strLt (jsToLower (jstr ("10"))) (jsToLower (jstr ("9"))) = true ∧
      cellCompare true (jstr ("10")) (jstr ("abc")) = -1 ∧
      cellCompare true (jstr ("9")) (jstr ("abc")) = -1 := by
  refine ⟨?_, by decide, by decide, by decide, by decide, by decide⟩
  intro a b qa qb ha hb
  rw [cellCompare]
  simp only [ha, hb]
  rw [if_pos ⟨fun hc => JNumV.noConfusion hc, fun hc => JNumV.noConfusion hc⟩,
    if_pos trivial]
  rfl

/-- Witness for C7: the universal numeric-comparison clause applied to the
cells 10 and 9. -/
theorem claim7_numeric_sort_witness :
    cellCompare true (jstr ("10")) (jstr ("9")) =
      (if JFrac.blt ⟨10, 1⟩ ⟨9, 1⟩ then -1
        else if JFrac.blt ⟨9, 1⟩ ⟨10, 1⟩ then 1 else 0) :=
  claim7_numeric_sort.1 (jstr ("10")) (jstr ("9")) ⟨10, 1⟩ ⟨9, 1⟩
    (by decide) (by decide)

/-- C8: sorting a column that is not the current sort column selects it
ascending; sorting the same column again toggles the direction each time;
and sorting a different column afterwards resets the direction to
ascending. -/
theorem claim8_sort_direction (st : FKState) (i j : Int)
    (hi : st.sortColumn ≠ i) (hj : j ≠ i) :
    (sortTable st i).sortColumn = i ∧
      (sortTable st i).sortDirAsc = true ∧
      (sortTable (sortTable st i) i).sortDirAsc = false ∧
      (sortTable (sortTable (sortTable st i) i) i).sortDirAsc = true ∧
      (sortTable (sortTable (sortTable st i) i) j).sortDirAsc = true := by
  refine ⟨rfl, ?_, ?_, ?_, ?_⟩ <;>
    simp [sortTable, hi, Ne.symm hj]

/-- Witness for C8: the direction sequence at a concrete state and columns
0 and 1. -/
theorem claim8_sort_direction_witness :
    (sortTable ⟨[], [], -1, true, [], [], 0⟩ 0).sortColumn = 0 ∧
      (sortTable ⟨[], [], -1, true, [], [], 0⟩ 0).sortDirAsc = true ∧
      (sortTable (sortTable ⟨[], [], -1, true, [], [], 0⟩ 0) 0).sortDirAsc = false ∧
      (sortTable (sortTable (sortTable ⟨[], [], -1, true, [], [], 0⟩ 0) 0)
        0).sortDirAsc = true ∧
      (sortTable (sortTable (sortTable ⟨[], [], -1, true, [], [], 0⟩ 0) 0)
        1).sortDirAsc = true :=
  claim8_sort_direction ⟨[], [], -1, true, [], [], 0⟩ 0 1 (by decide) (by decide)

/-- Counterexample to C5 as stated: on a text whose second through fifth
lines are empty, the code samples those empty lines (first five lines of the
trimmed text) and returns comma, while the claimed first-five-non-empty-line
sampling would see the semicolon rows and return semicolon. -/
theorem claim5_counterexample :
    detectDelimiter (jstr (",\n\n\n\n\n;;;;;;\n;;;;;;")) = ',' ∧
      detectDelimiterClaimNE (jstr (",\n\n\n\n\n;;;;;;\n;;;;;;")) = ';' := by
  constructor
  · decide
  · decide

/-- splitOnChar never returns an empty list of pieces. -/
theorem splitOnChar_ne_nil (sep : Char) (s : JStr) : splitOnChar sep s ≠ [] := by
  cases s with
  | nil => simp [splitOnChar]
  | cons c cs =>
    rw [splitOnChar]
    match h : splitOnChar sep cs with
    | [] => simp
    | x :: xs =>
      by_cases hc : c = sep <;> simp [hc]

/-- Numerator of a sum of fractions. -/
@[simp] theorem JFrac.add_num (a b : JFrac) :
    (a.add b).num = a.num * b.den + b.num * a.den := rfl

/-- Denominator of a sum of fractions. -/
@[simp] theorem JFrac.add_den (a b : JFrac) : (a.add b).den = a.den * b.den := rfl

/-- Numerator of a difference of fractions. -/
@[simp] theorem JFrac.sub_num (a b : JFrac) :
    (a.sub b).num = a.num * b.den - b.num * a.den := rfl

/-- Denominator of a difference of fractions. -/
@[simp] theorem JFrac.sub_den (a b : JFrac) : (a.sub b).den = a.den * b.den := rfl

/-- Numerator of a product of fractions. -/
@[simp] theorem JFrac.mul_num (a b : JFrac) : (a.mul b).num = a.num * b.num := rfl

/-- Denominator of a product of fractions. -/
@[simp] theorem JFrac.mul_den (a b : JFrac) : (a.mul b).den = a.den * b.den := rfl

/-- Numerator of a quotient of fractions. -/
@[simp] theorem JFrac.div_num (a b : JFrac) : (a.div b).num = a.num * b.den := rfl

/-- Denominator of a quotient of fractions. -/
@[simp] theorem JFrac.div_den (a b : JFrac) : (a.div b).den = a.den * b.num := rfl

/-- Numerator of an embedded natural number. -/
@[simp] theorem JFrac.ofNat_num (n : Nat) : (JFrac.ofNat n).num = n := rfl

/-- Denominator of an embedded natural number. -/
@[simp] theorem JFrac.ofNat_den (n : Nat) : (JFrac.ofNat n).den = 1 := rfl

/-- The square-summing fold of the variance keeps a non-negative numerator
and a positive denominator. -/
theorem sumsqFold_inv (avg : JFrac) (hd : 0 < avg.den) :
    ∀ (counts : List Nat) (acc : JFrac), 0 ≤ acc.num → 0 < acc.den →
    0 ≤ (counts.foldl
      (fun (sum : JFrac) (v : Nat) =>
        sum.add (((JFrac.ofNat v).sub avg).mul ((JFrac.ofNat v).sub avg)))
      acc).num ∧
    0 < (counts.foldl
      (fun (sum : JFrac) (v : Nat) =>
        sum.add (((JFrac.ofNat v).sub avg).mul ((JFrac.ofNat v).sub avg)))
      acc).den := by
  intro counts
  induction counts with
  | nil => intro acc h1 h2; exact ⟨h1, h2⟩
  | cons v vs ih =>
    intro acc h1 h2
    rw [List.foldl_cons]
    refine ih _ ?_ ?_
    · simp only [JFrac.add_num, JFrac.mul_num, JFrac.mul_den, JFrac.sub_num,
        JFrac.sub_den, JFrac.ofNat_num, JFrac.ofNat_den, one_mul]
      exact add_nonneg (mul_nonneg h1 (mul_nonneg hd.le hd.le))
        (mul_nonneg (mul_self_nonneg _) h2.le)
    · simp only [JFrac.add_den, JFrac.mul_den, JFrac.sub_den, JFrac.ofNat_den,
        one_mul]
      exact mul_pos h2 (mul_pos hd hd)

/-- The score of every candidate has a positive denominator and a
non-negative numerator whenever at least one line was sampled. -/
theorem delimScore_pos (lines : List JStr) (d : Char) (h : lines ≠ []) :
    0 < (delimScore lines d).den ∧ 0 ≤ (delimScore lines d).num := by
  rw [delimScore]
  set counts := lines.map fun line => line.count d with hc
  have hn : 0 < (counts.length : Int) := by
    rw [hc]
    simp only [List.length_map]
    exact_mod_cast List.length_pos.mpr h
  set avg := (JFrac.ofNat (counts.foldl (· + ·) 0)).div (JFrac.ofNat counts.length)
    with ha
  have havgden : 0 < avg.den := by
    rw [ha]
    simp only [JFrac.div_den, JFrac.ofNat_den, JFrac.ofNat_num, one_mul]
    exact hn
  have havgnum : 0 ≤ avg.num := by
    rw [ha]
    simp only [JFrac.div_num, JFrac.ofNat_den, JFrac.ofNat_num, mul_one]
    exact Int.ofNat_nonneg _
  have hsq := sumsqFold_inv avg havgden counts ⟨0, 1⟩ (by norm_num) (by norm_num)
  split
  · constructor
    · simp only [JFrac.div_den, JFrac.div_num, JFrac.add_num, JFrac.add_den,
        JFrac.ofNat_num, JFrac.ofNat_den, one_mul, mul_one]
      nlinarith [havgden, hsq.1, hsq.2, hn, mul_pos hsq.2 hn]
    · simp only [JFrac.div_den, JFrac.div_num, JFrac.add_num, JFrac.add_den,
        JFrac.ofNat_num, JFrac.ofNat_den, one_mul, mul_one]
      nlinarith [havgnum, hsq.1, hsq.2, hn, mul_pos hsq.2 hn]
  · exact ⟨by norm_num, by norm_num⟩

/-- Every candidate score is a non-negative rational. -/
theorem delimScore_toRat_nonneg (lines : List JStr) (d : Char) (h : lines ≠ []) :
    0 ≤ (delimScore lines d).toRat := by
  obtain ⟨h1, h2⟩ := delimScore_pos lines d h
  rw [JFrac.toRat]
  exact div_nonneg (by exact_mod_cast h2) (by exact_mod_cast h1.le)

/-- Characterization of the keep-the-strict-best fold: the result is either
the start or a walked pair; its score has a positive denominator; it
dominates the start and every walked score; when it moved away from the
start it strictly beats the start and every pair before its candidate; and
it stays at the start when nothing strictly beats the start. -/
theorem bestFold_spec :
    ∀ (ps : List (Char × JFrac)) (c0 : Char) (s0 : JFrac),
    0 < s0.den → (∀ p ∈ ps, 0 < p.2.den) → (ps.map Prod.fst).Nodup →
    (ps.foldl (fun best p => if JFrac.blt best.2 p.2 then p else best) (c0, s0) =
        (c0, s0) ∨
      ps.foldl (fun best p => if JFrac.blt best.2 p.2 then p else best) (c0, s0) ∈ ps) ∧
    0 < (ps.foldl (fun best p => if JFrac.blt best.2 p.2 then p else best)
      (c0, s0)).2.den ∧
    s0.toRat ≤ (ps.foldl (fun best p => if JFrac.blt best.2 p.2 then p else best)
      (c0, s0)).2.toRat ∧
    (∀ p ∈ ps, p.2.toRat ≤
      (ps.foldl (fun best p => if JFrac.blt best.2 p.2 then p else best)
        (c0, s0)).2.toRat) ∧
    (ps.foldl (fun best p => if JFrac.blt best.2 p.2 then p else best) (c0, s0) ≠
        (c0, s0) →
      s0.toRat < (ps.foldl (fun best p => if JFrac.blt best.2 p.2 then p else best)
        (c0, s0)).2.toRat) ∧
    (ps.foldl (fun best p => if JFrac.blt best.2 p.2 then p else best) (c0, s0) ≠
        (c0, s0) →
      ∀ q ∈ ps.takeWhile (fun q => q.1 ≠
          (ps.foldl (fun best p => if JFrac.blt best.2 p.2 then p else best)
            (c0, s0)).1),
        q.2.toRat <
          (ps.foldl (fun best p => if JFrac.blt best.2 p.2 then p else best)
            (c0, s0)).2.toRat) ∧
    ((∀ p ∈ ps, p.2.toRat ≤ s0.toRat) →
      ps.foldl (fun best p => if JFrac.blt best.2 p.2 then p else best) (c0, s0) =
        (c0, s0)) := by
  intro ps
  induction ps with
  | nil =>
    intro c0 s0 hs0 _ _
    refine ⟨Or.inl rfl, hs0, le_refl _, ?_, ?_, ?_, fun _ => rfl⟩
    · intro p hp; exact absurd hp (List.not_mem_nil p)
    · intro hne; exact absurd rfl hne
    · intro hne; exact absurd rfl hne
  | cons p rest ih =>
    intro c0 s0 hs0 hden hnd
    have hpd : 0 < p.2.den := hden p (by simp)
    have hrd : ∀ q ∈ rest, 0 < q.2.den := fun q hq => hden q (by simp [hq])
    have hndr : (rest.map Prod.fst).Nodup := (List.nodup_cons.mp hnd).2
    have hp1 : p.1 ∉ rest.map Prod.fst := (List.nodup_cons.mp hnd).1
    rw [List.foldl_cons]
    by_cases hb : JFrac.blt s0 p.2
    · rw [if_pos hb]
      have hlt : s0.toRat < p.2.toRat := (JFrac.blt_iff_toRat s0 p.2 hs0 hpd).mp hb
      obtain ⟨i1, i2, i3, i4, i5, i6, i7⟩ := ih p.1 p.2 hpd hrd hndr
      simp only [Prod.mk.eta] at i1 i2 i3 i4 i5 i6 i7
      set res := rest.foldl (fun best p => if JFrac.blt best.2 p.2 then p else best) p
        with hres
      refine ⟨?_, i2, ?_, ?_, ?_, ?_, ?_⟩
      · rcases i1 with h | h
        · exact Or.inr (by simp [h])
        · exact Or.inr (by simp [h])
      · exact le_of_lt (lt_of_lt_of_le hlt i3)
      · intro q hq
        rcases List.mem_cons.mp hq with h | h
        · exact h ▸ i3
        · exact i4 q h
      · intro _; exact lt_of_lt_of_le hlt i3
      · intro _
        intro q hq
        by_cases hr : res = p
        · rw [List.takeWhile_cons, hr] at hq
          simp at hq
        · have hresr : res ∈ rest := by
            rcases i1 with h | h
            · exact absurd h hr
            · exact h
          have hch : res.1 ≠ p.1 := by
            intro he
            exact hp1 (he ▸ List.mem_map_of_mem Prod.fst hresr)
          have hrne : res ≠ p := hr
          rw [List.takeWhile_cons] at hq
          have hcond : (decide (p.1 ≠ res.1)) = true := decide_eq_true (Ne.symm hch)
          rw [hcond] at hq
          simp only [if_true] at hq
          rcases List.mem_cons.mp hq with h | h
          · exact h ▸ i5 hrne
          · exact i6 hrne q h
      · intro hall
        exact absurd hlt (not_lt.mpr (hall p (by simp)))
    · rw [if_neg hb]
      have hle : p.2.toRat ≤ s0.toRat := by
        by_contra hc
        exact hb ((JFrac.blt_iff_toRat s0 p.2 hs0 hpd).mpr (lt_of_not_le hc))
      obtain ⟨i1, i2, i3, i4, i5, i6, i7⟩ := ih c0 s0 hs0 hrd hndr
      set res := rest.foldl (fun best p => if JFrac.blt best.2 p.2 then p else best)
        (c0, s0) with hres
      refine ⟨?_, i2, i3, ?_, i5, ?_, ?_⟩
      · rcases i1 with h | h
        · exact Or.inl h
        · exact Or.inr (by simp [h])
      · intro q hq
        rcases List.mem_cons.mp hq with h | h
        · exact h ▸ le_trans hle i3
        · exact i4 q h
      · intro hne q hq
        have hresr : res ∈ rest := by
          rcases i1 with h | h
          · exact absurd h hne
          · exact h
        have hch : res.1 ≠ p.1 := by
          intro he
          exact hp1 (he ▸ List.mem_map_of_mem Prod.fst hresr)
        rw [List.takeWhile_cons] at hq
        have hcond : (decide (p.1 ≠ res.1)) = true := decide_eq_true (Ne.symm hch)
        rw [hcond] at hq
        simp only [if_true] at hq
        rcases List.mem_cons.mp hq with h | h
        · exact h ▸ lt_of_le_of_lt hle (i5 hne)
        · exact i6 hne q h
      · intro hall
        exact i7 (fun q hq => hall q (by simp [hq]))

/-- Pairs built over a takeWhile prefix of candidates stay in the takeWhile
prefix of the built pair list. -/
theorem mem_takeWhile_pair (f : Char → JFrac) (r : Char) :
    ∀ (cands : List Char) (d : Char),
    d ∈ cands.takeWhile (fun x => x ≠ r) →
    (d, f d) ∈ (cands.map (fun x => (x, f x))).takeWhile (fun q => q.1 ≠ r) := by
  intro cands
  induction cands with
  | nil => intro d hd; simp [List.takeWhile] at hd
  | cons c cs ih =>
    intro d hd
    by_cases hc : c = r
    · rw [List.takeWhile_cons] at hd
      simp [hc] at hd
    · rw [List.takeWhile_cons] at hd
      rw [List.map_cons, List.takeWhile_cons]
      have hcond : (decide (c ≠ r)) = true := decide_eq_true hc
      rw [hcond] at hd
      simp only [if_true] at hd
      have hcond2 : (decide ((c, f c).1 ≠ r)) = true := decide_eq_true hc
      rw [hcond2]
      simp only [if_true]
      rcases List.mem_cons.mp hd with h | h
      · exact List.mem_cons.mpr (Or.inl (by rw [h]))
      · exact List.mem_cons.mpr (Or.inr (ih d h))

/-- C5 (corrected): detectDelimiter samples the first five lines of the
trimmed text (not the first five non-empty lines), scores each candidate as
mean/(variance+1) of the per-line counts with score zero at mean zero, and
returns a candidate whose score no candidate strictly exceeds, every
candidate declared before it scoring strictly less (ties keep the earlier
candidate), with comma returned whenever no candidate has positive score. -/
theorem claim5_detectDelimiter (text : JStr) :
    detectDelimiter text ∈ delimCandidates ∧
      (∀ d ∈ delimCandidates,
        (delimScore ((splitOnChar '\n' (jsTrim text)).take 5) d).toRat ≤
          (delimScore ((splitOnChar '\n' (jsTrim text)).take 5)
            (detectDelimiter text)).toRat) ∧
      (∀ d ∈ delimCandidates.takeWhile (fun x => x ≠ detectDelimiter text),
        (delimScore ((splitOnChar '\n' (jsTrim text)).take 5) d).toRat <
          (delimScore ((splitOnChar '\n' (jsTrim text)).take 5)
            (detectDelimiter text)).toRat) ∧
      ((∀ d ∈ delimCandidates,
          (delimScore ((splitOnChar '\n' (jsTrim text)).take 5) d).toRat ≤ 0) →
        detectDelimiter text = ',') := by
  have hlines : ((splitOnChar '\n' (jsTrim text)).take 5) ≠ [] := by
    cases h : splitOnChar '\n' (jsTrim text) with
    | nil => exact absurd h (splitOnChar_ne_nil _ _)
    | cons x xs => simp [List.take]
  set lines := (splitOnChar '\n' (jsTrim text)).take 5 with hL
  set ps := delimCandidates.map (fun d => (d, delimScore lines d)) with hps
  have hdet : detectDelimiter text =
      (ps.foldl (fun best p => if JFrac.blt best.2 p.2 then p else best)
        (',', (⟨0, 1⟩ : JFrac))).1 := by
    rw [detectDelimiter, hps, List.foldl_map]
  have hmapfst : ps.map Prod.fst = delimCandidates := by
    rw [hps, List.map_map]
    rfl
  obtain ⟨i1, i2, i3, i4, i5, i6, i7⟩ :=
    bestFold_spec ps ',' ⟨0, 1⟩ (by norm_num)
      (by
        intro p hp
        rw [hps] at hp
        obtain ⟨d, _, hd⟩ := List.mem_map.mp hp
        rw [← hd]
        exact (delimScore_pos lines d hlines).1)
      (by rw [hmapfst]; decide)
  set res := ps.foldl (fun best p => if JFrac.blt best.2 p.2 then p else best)
    (',', (⟨0, 1⟩ : JFrac)) with hres
  have hzero : ((⟨0, 1⟩ : JFrac)).toRat = 0 := by
    rw [JFrac.toRat]
    norm_num
  have hres2 : res ∈ ps → res.2 = delimScore lines res.1 := by
    intro h
    obtain ⟨d, _, hd⟩ := List.mem_map.mp (hps ▸ h)
    rw [← hd]
  refine ⟨?_, ?_, ?_, ?_⟩
  · rw [hdet]
    rcases i1 with h | h
    · rw [h]; decide
    · rw [← hmapfst]
      exact List.mem_map_of_mem Prod.fst h
  · intro d hd
    rw [hdet]
    rcases i1 with h | h
    · have hall : (delimScore lines d).toRat ≤ 0 := by
        have := i4 (d, delimScore lines d)
          (by rw [hps]; exact List.mem_map_of_mem _ hd)
        rw [h] at this
        simpa [hzero] using this
      have : res.1 = ',' := by rw [h]
      rw [this]
      exact le_trans hall (delimScore_toRat_nonneg lines ',' hlines)
    · rw [← hres2 h]
      exact i4 (d, delimScore lines d) (by rw [hps]; exact List.mem_map_of_mem _ hd)
  · intro d hd
    rw [hdet] at hd ⊢
    by_cases hinit : res = (',', (⟨0, 1⟩ : JFrac))
    · rw [hinit] at hd
      simp [List.takeWhile_cons, delimCandidates] at hd
    · have hmem : res ∈ ps := by
        rcases i1 with h | h
        · exact absurd h hinit
        · exact h
      have hpair : (d, delimScore lines d) ∈
          ps.takeWhile (fun q => q.1 ≠ res.1) := by
        rw [hps]
        exact mem_takeWhile_pair (delimScore lines) res.1 delimCandidates d hd
      have hlt := i6 hinit (d, delimScore lines d) hpair
      rw [hres2 hmem] at hlt
      exact hlt
  · intro hall
    rw [hdet]
    have hresinit : res = (',', (⟨0, 1⟩ : JFrac)) := by
      refine i7 ?_
      intro p hp
      obtain ⟨d, hdm, hdp⟩ := List.mem_map.mp (hps ▸ hp)
      rw [hzero, ← hdp]
      exact hall d hdm
    rw [hresinit]

/-- Witness for C5: on an input with no delimiter signal every candidate
scores zero and the detector returns comma. -/
theorem claim5_detectDelimiter_witness : detectDelimiter (jstr ("ab")) = ',' :=
  (claim5_detectDelimiter (jstr ("ab"))).2.2.2 (by
    intro d hd
    fin_cases hd <;>
      · rw [show delimScore ((splitOnChar '\n' (jsTrim (jstr ("ab")))).take 5) _ =
            (⟨0, 1⟩ : JFrac) from by decide]
        rw [JFrac.toRat]
        norm_num)

/-- formatFromText is the priority dispatch over detectorSteps: the first
step that detects and parses to a non-empty table list owns the input,
and the CSV fallback runs when no step does. -/
theorem formatFromText_eq_dispatch (st : FKState) (input : JStr)
    (sel : DelimSel) (frh : Bool) :
    formatFromText st input sel frh =
      (if jsTrim input = [] then st
        else
          match firstMatch detectorSteps (jsTrim input) with
          | some tabs => applyTables st tabs
          | none =>
            processData { st with tables := [] } frh
              (parseCSV (jsTrim input) (resolveDelimiter sel (jsTrim input)))) := by
  rw [formatFromText]
  by_cases h0 : jsTrim input = []
  · simp [h0]
  simp only [if_neg h0]
  simp only [detectorSteps, firstMatch]
  by_cases h1 : isDatabricksFormat (jsTrim input) = true
  · by_cases h2 : parseDatabricksFormat (jsTrim input) = []
    · simp only [h1, h2, if_true, ne_eq, not_true_eq_false, if_false,
        List.length_nil, gt_iff_lt, Nat.lt_irrefl, and_false]
      by_cases h3 : isMarkdownTable (jsTrim input) = true
      · by_cases h4 : parseMarkdownTable (jsTrim input) = []
        · simp only [h3, h4, if_true, ne_eq, not_true_eq_false, if_false,
            List.length_nil, gt_iff_lt, Nat.lt_irrefl, and_false]
          by_cases h5 : isJSONArray (jsTrim input) = true
          · simp [h5]
          · simp only [h5, Bool.false_eq_true, if_false]
            by_cases h6 : isFixedWidthTable (jsTrim input) = true
            · cases hfw : parseFixedWidthTable (jsTrim input) <;>
                simp [h6, hfw]
            · simp [h6]
        · have h4' : (parseMarkdownTable (jsTrim input)).length > 0 :=
            List.length_pos.mpr h4
          simp [h3, h4, h4']
      · simp only [h3, Bool.false_eq_true, false_and, if_false]
        by_cases h5 : isJSONArray (jsTrim input) = true
        · simp [h5]
        · simp only [h5, Bool.false_eq_true, if_false]
          by_cases h6 : isFixedWidthTable (jsTrim input) = true
          · cases hfw : parseFixedWidthTable (jsTrim input) <;>
              simp [h6, hfw]
          · simp [h6]
    · have h2' : (parseDatabricksFormat (jsTrim input)).length > 0 :=
        List.length_pos.mpr h2
      simp [h1, h2, h2']
  · simp only [h1, Bool.false_eq_true, false_and, if_false]
    by_cases h3 : isMarkdownTable (jsTrim input) = true
    · by_cases h4 : parseMarkdownTable (jsTrim input) = []
      · simp only [h3, h4, if_true, ne_eq, not_true_eq_false, if_false,
          List.length_nil, gt_iff_lt, Nat.lt_irrefl, and_false]
        by_cases h5 : isJSONArray (jsTrim input) = true
        · simp [h5]
        · simp only [h5, Bool.false_eq_true, if_false]
          by_cases h6 : isFixedWidthTable (jsTrim input) = true
          · cases hfw : parseFixedWidthTable (jsTrim input) <;>
              simp [h6, hfw]
          · simp [h6]
      · have h4' : (parseMarkdownTable (jsTrim input)).length > 0 :=
          List.length_pos.mpr h4
        simp [h3, h4, h4']
    · simp only [h3, Bool.false_eq_true, false_and, if_false]
      by_cases h5 : isJSONArray (jsTrim input) = true
      · simp [h5]
      · simp only [h5, Bool.false_eq_true, if_false]
        by_cases h6 : isFixedWidthTable (jsTrim input) = true
        · cases hfw : parseFixedWidthTable (jsTrim input) <;>
            simp [h6, hfw]
        · simp [h6]

/-- C2: the format classifier runs the detectors in the fixed priority
order box-table, Markdown, JSON array, fixed-width, with delimited text as
the fallback, and the input is owned by the first detector that matches
and whose parser produces at least one table; a detector whose pattern
matches but whose parser yields no table does not own the input. -/
theorem claim2_classifier_priority (st : FKState) (input : JStr)
    (sel : DelimSel) (frh : Bool) :
    formatFromText st input sel frh =
      (if jsTrim input = [] then st
        else
          match firstMatch detectorSteps (jsTrim input) with
          | some tabs => applyTables st tabs
          | none =>
            processData { st with tables := [] } frh
              (parseCSV (jsTrim input) (resolveDelimiter sel (jsTrim input)))) :=
  formatFromText_eq_dispatch st input sel frh

/-- Counterexample to C2 as stated: this input matches both the box-table
and the Markdown detection patterns, yet the box-table parser yields no
table, the classifier falls through, and the Markdown parser owns the
input (the resulting headers are the Markdown ones). -/
theorem claim2_counterexample :
    isDatabricksFormat (jstr ("====\nTABLE: foo\na | b\n--- | ---\n1 | 2")) =
        true ∧
      isMarkdownTable (jstr ("====\nTABLE: foo\na | b\n--- | ---\n1 | 2")) =
        true ∧
      parseDatabricksFormat (jstr ("====\nTABLE: foo\na | b\n--- | ---\n1 | 2")) =
        [] ∧
      (formatFromText ⟨[], [], -1, true, [], [], 0⟩
          (jstr ("====\nTABLE: foo\na | b\n--- | ---\n1 | 2"))
          DelimSel.auto true).headers = [jstr ("a"), jstr ("b")] := by
  decide

/-- C9: when the paste action fails — blank input, or no detector owning
the input and the delimited fallback producing zero rows — the canonical
document state (headers, data, filteredData, sort column and direction)
is left unchanged. -/
theorem claim9_failure_preserves_state (st : FKState) (input : JStr)
    (sel : DelimSel) (frh : Bool)
    (h : jsTrim input = [] ∨
      (firstMatch detectorSteps (jsTrim input) = none ∧
        parseCSV (jsTrim input) (resolveDelimiter sel (jsTrim input)) = [])) :
    (formatFromText st input sel frh).headers = st.headers ∧
      (formatFromText st input sel frh).data = st.data ∧
      (formatFromText st input sel frh).filteredData = st.filteredData ∧
      (formatFromText st input sel frh).sortColumn = st.sortColumn ∧
      (formatFromText st input sel frh).sortDirAsc = st.sortDirAsc := by
  rw [formatFromText_eq_dispatch]
  rcases h with h0 | ⟨h1, h2⟩
  · simp [h0]
  · by_cases h0 : jsTrim input = []
    · simp [h0]
    · simp [h0, h1, h2, processData]

/-- Witness for C9: a non-blank input every detector rejects and whose CSV
parse yields no row (a lone quoted empty cell) leaves a concrete non-trivial
state's document fields unchanged. -/
theorem claim9_failure_preserves_state_witness :
    (formatFromText
          ⟨[jstr ("h")], [[jstr ("v")]], 2, false, [[jstr ("v")]],
            [⟨jstr ("t"), [jstr ("h")], [[jstr ("v")]]⟩], 0⟩
          (jstr ("\"\"")) DelimSel.auto true).headers = [jstr ("h")] ∧
      (formatFromText
          ⟨[jstr ("h")], [[jstr ("v")]], 2, false, [[jstr ("v")]],
            [⟨jstr ("t"), [jstr ("h")], [[jstr ("v")]]⟩], 0⟩
          (jstr ("\"\"")) DelimSel.auto true).data = [[jstr ("v")]] ∧
      (formatFromText
          ⟨[jstr ("h")], [[jstr ("v")]], 2, false, [[jstr ("v")]],
            [⟨jstr ("t"), [jstr ("h")], [[jstr ("v")]]⟩], 0⟩
          (jstr ("\"\"")) DelimSel.auto true).filteredData = [[jstr ("v")]] ∧
      (formatFromText
          ⟨[jstr ("h")], [[jstr ("v")]], 2, false, [[jstr ("v")]],
            [⟨jstr ("t"), [jstr ("h")], [[jstr ("v")]]⟩], 0⟩
          (jstr ("\"\"")) DelimSel.auto true).sortColumn = 2 ∧
      (formatFromText
          ⟨[jstr ("h")], [[jstr ("v")]], 2, false, [[jstr ("v")]],
            [⟨jstr ("t"), [jstr ("h")], [[jstr ("v")]]⟩], 0⟩
          (jstr ("\"\"")) DelimSel.auto true).sortDirAsc = false :=
  claim9_failure_preserves_state
    ⟨[jstr ("h")], [[jstr ("v")]], 2, false, [[jstr ("v")]],
      [⟨jstr ("t"), [jstr ("h")], [[jstr ("v")]]⟩], 0⟩
    (jstr ("\"\"")) DelimSel.auto true (Or.inr ⟨by decide, by decide⟩)
